import Mathlib

/-!
Shallow embedding of the `rm_radar` perception core (Robot assembly,
Locator depth pipeline, Tracker state machine) and proofs of the
specification's claims about it.

Floats of the C++ source are modelled as exact rationals (`ℚ`) except for
the distance-score formula of `Tracker::calculateCost`, which uses `exp`
and is therefore modelled over `ℝ`.  C++ `int` is modelled as `ℤ` and
`float → int` conversions as truncation toward zero (`cvTrunc`) or
OpenCV's round-half-to-even (`cvRound`) where the source performs them.
-/

namespace RmRadar

/-- A 3-D point (`cv::Point3f` / `pcl::PointXYZ`). -/
structure V3 where
  x : ℚ
  y : ℚ
  z : ℚ
deriving DecidableEq, Repr

/-- A float rectangle (`cv::Rect2f`). -/
structure RectQ where
  x : ℚ
  y : ℚ
  width : ℚ
  height : ℚ
deriving DecidableEq, Repr

/-- An integer rectangle (`cv::Rect`). -/
structure RectI where
  x : ℤ
  y : ℤ
  width : ℤ
  height : ℤ
deriving DecidableEq, Repr

/-- A detection produced by the neural detector (`Detection` of the
source: image-space rectangle, class label, confidence). -/
structure Detection where
  x : ℚ
  y : ℚ
  width : ℚ
  height : ℚ
  label : ℤ
  confidence : ℚ
deriving DecidableEq, Repr

/-- Track lifecycle state (`TrackState`). -/
inductive TrackState where
  | Tentative
  | Confirmed
  | Deleted
deriving DecidableEq, Repr

/-- The `Track` entity used by `Tracker::update` and `Robot::setTrack`.
The fields mirror the members read and written by the source in
`tracker.cpp` and `robot.cpp` (`state`, `init_count_`, `miss_count_`,
`location()`, `label()`, the feature matrix, `track_id`, and the filter
timestamp).  The Kalman filter internals live in `track.h`, which is not
part of the sources; the filter is abstracted by `last_measurement`,
which records the measurement most recently incorporated by
`Track::update`. -/
structure Track where
  state : TrackState
  init_count : ℤ
  miss_count : ℤ
  location : V3
  label : ℤ
  features : List (List ℚ)
  track_id : ℤ
  timestamp : ℤ
  last_measurement : Option V3
deriving DecidableEq, Repr

def Track.isTentative (t : Track) : Prop := t.state = TrackState.Tentative

def Track.isConfirmed (t : Track) : Prop := t.state = TrackState.Confirmed

def Track.isDeleted (t : Track) : Prop := t.state = TrackState.Deleted

instance (t : Track) : Decidable t.isTentative := by unfold Track.isTentative; infer_instance

instance (t : Track) : Decidable t.isConfirmed := by unfold Track.isConfirmed; infer_instance

instance (t : Track) : Decidable t.isDeleted := by unfold Track.isDeleted; infer_instance

/-- Modelled from the spec: `Track::predict` (`track.h` is absent from the
sources).  The Singer-model propagation of the filter mean is abstracted;
only the filter timestamp advances.  No claim depends on the predicted
mean. -/
def Track.predict (t : Track) (ts : ℤ) : Track :=
  { t with timestamp := ts }

/-- Modelled from the spec: `Track::update` (`track.h` is absent from the
sources).  Performs the Kalman measurement update with the observed
location — abstracted by recording the measurement — and appends the
observation's feature to the track's feature matrix, as §4.3.1 of the
spec describes. -/
def Track.update (t : Track) (loc : V3) (feat : List ℚ) : Track :=
  { t with last_measurement := some loc, features := t.features ++ [feat] }

/-- Modelled from the spec: the `Track` constructor used by
`Tracker::update` when creating a track from an unmatched robot
(`track.h` is absent from the sources).  The track is created Tentative,
seeded from the robot's location and feature. -/
def Track.create (loc : V3) (feat : List ℚ) (ts : ℤ) (id : ℤ) : Track :=
  { state := TrackState.Tentative, init_count := 0, miss_count := 0,
    location := loc, label := 0, features := [feat], track_id := id,
    timestamp := ts, last_measurement := none }

/-- The per-frame `Robot` working entity (`robot.h` fields as used by
`robot.cpp` and `locate.cpp`): every field independently optional. -/
structure Robot where
  rect : Option RectQ
  label : Option ℤ
  confidence : Option ℚ
  armors : Option (List Detection)
  location : Option V3
  track_state : Option TrackState
deriving DecidableEq, Repr

def Robot.isDetected (r : Robot) : Prop := r.label.isSome

def Robot.isLocated (r : Robot) : Prop := r.location.isSome

instance (r : Robot) : Decidable r.isDetected := by unfold Robot.isDetected; infer_instance

instance (r : Robot) : Decidable r.isLocated := by unfold Robot.isLocated; infer_instance

/-- A robot with no field set (the default-constructed `Robot`). -/
def Robot.empty : Robot :=
  { rect := none, label := none, confidence := none, armors := none,
    location := none, track_state := none }

/-- `Locator::search` writes the location through `Robot::setLocation`. -/
def Robot.setLocation (r : Robot) (loc : V3) : Robot :=
  { r with location := some loc }

/-- One insertion step of `score_map[armor.label] += armor.confidence`:
`std::map<int, float>` keeps its entries sorted by key, and `operator[]`
default-inserts `0.0` before `+=`. -/
def scoreMapInsert : List (ℤ × ℚ) → ℤ → ℚ → List (ℤ × ℚ)
  | [], l, c => [(l, c)]
  | (k, v) :: rest, l, c =>
    if l < k then (l, c) :: (k, v) :: rest
    else if l = k then (k, v + c) :: rest
    else (k, v) :: scoreMapInsert rest l c

/-- The `score_map` built by `Robot::setDetection`. -/
def buildScoreMap (armors : List Detection) : List (ℤ × ℚ) :=
  armors.foldl (fun m a => scoreMapInsert m a.label a.confidence) []

/-- `std::max_element` over the score map with comparison on the summed
confidence: keeps the current best unless a later entry is strictly
greater, hence returns the first maximal entry. -/
def maxPair : (ℤ × ℚ) → List (ℤ × ℚ) → (ℤ × ℚ)
  | best, [] => best
  | best, p :: rest => maxPair (if best.2 < p.2 then p else best) rest

/-- `Robot::setDetection` (robot.cpp lines 25-58): sets the car rect;
if the armor list is empty returns early; otherwise votes the label by
summed confidence, averages the winning-label confidences, and stores
the armors shifted by the car's top-left corner. -/
def Robot.setDetection (r : Robot) (car : Detection) (armors : List Detection) : Robot :=
  let r1 := { r with rect := some ⟨car.x, car.y, car.width, car.height⟩ }
  if armors.isEmpty then r1
  else
    match buildScoreMap armors with
    | [] => r1
    | p :: rest =>
      let lp := maxPair p rest
      let winner := lp.1
      let conf := lp.2 / ((armors.countP (fun a => decide (a.label = winner)) : ℤ) : ℚ)
      { r1 with
        label := some winner
        confidence := some conf
        armors := some (armors.map (fun a => { a with x := a.x + car.x, y := a.y + car.y })) }

/-- The `Robot` constructor: `Robot(car, armors)` calls `setDetection`
on a default-constructed robot. -/
def Robot.ofDetection (car : Detection) (armors : List Detection) : Robot :=
  Robot.empty.setDetection car armors

/-- `Robot::setTrack` (robot.cpp lines 60-73). -/
def Robot.setTrack (r : Robot) (t : Track) : Robot :=
  let r1 := { r with track_state := some t.state }
  if t.state = TrackState.Confirmed then
    { r1 with label := some t.label, location := some t.location }
  else
    { r1 with
      label := if r1.label.isSome then r1.label else some t.label,
      location := if r1.location.isSome then r1.location else some t.location }

/-- One step of the armor loop of `Robot::feature`:
`feature(armor.label) += armor.confidence`, the armor's label used as
the vector index. -/
def featStep (v : List ℚ) (a : Detection) : List ℚ :=
  v.set a.label.toNat (v.getD a.label.toNat 0 + a.confidence)

/-- `Robot::feature` (robot.cpp lines 75-95): zero vector when not
detected; otherwise per-label confidence sums, L1-normalized unless the
sum is zero.  The Eigen vector is modelled as a list of length
`class_num`. -/
def Robot.feature (r : Robot) (class_num : ℕ) : List ℚ :=
  let zero := List.replicate class_num (0 : ℚ)
  if ¬ r.isDetected then zero
  else
    let as := r.armors.getD []
    let f := as.foldl featStep zero
    let s := f.sum
    if s = 0 then f else f.map (· / s)

/-- Sum of the confidences of the armors carrying a given label: the
value accumulated in `score_map` for that label. -/
def labelScore (armors : List Detection) (l : ℤ) : ℚ :=
  ((armors.filter (fun a => decide (a.label = l))).map (fun a => a.confidence)).sum

/-- The value a `std::map<int, float>` holds at a key (0 when absent). -/
def mapval (m : List (ℤ × ℚ)) (l : ℤ) : ℚ := (m.lookup l).getD 0

/-- Modelled from the spec: the sentinel for an unmatched track in the
auction assignment (`auction.h` is absent from the sources). -/
def kNotMatched : ℤ := -1

/-- The `Tracker` (configuration fields of tracker.cpp that the update
loop reads, the track list, and `latest_id_`).  The auction assignment
itself lives in `auction.h`, which is absent from the sources; per
§4.3.2 of the spec it is any one-to-one matching, so `Tracker.update`
below takes the match result as a parameter. -/
structure Tracker where
  class_num : ℕ
  init_thresh : ℤ
  miss_thresh : ℤ
  tracks : List Track
  latest_id : ℤ
deriving DecidableEq, Repr

/-- The per-track body of the match loop of `Tracker::update`
(tracker.cpp lines 140-172): given the track, its assignment entry and
the current robot list, returns the updated track and, when matched, the
robot index together with the robot after `robot.setTrack(track)`.
A matched index outside the robot list is undefined behaviour in the
source; it is modelled as leaving track and robots untouched. -/
def processTrack (init_thresh : ℤ) (miss_thresh : ℤ) (class_num : ℕ)
    (track : Track) (m : ℤ) (robots : List Robot) : Track × Option (ℕ × Robot) :=
  if m = kNotMatched then
    if track.isTentative then
      ({ track with state := TrackState.Deleted }, none)
    else if track.isConfirmed then
      let t := { track with miss_count := track.miss_count + 1 }
      if miss_thresh ≤ t.miss_count then
        ({ t with state := TrackState.Deleted }, none)
      else (t, none)
    else (track, none)
  else
    match robots.get? m.toNat with
    | none => (track, none)
    | some robot =>
      let track1 :=
        match robot.location with
        | some loc =>
          let t := track.update loc (robot.feature class_num)
          if t.isTentative then
            let t := { t with init_count := t.init_count + 1 }
            let t := if init_thresh ≤ t.init_count then { t with state := TrackState.Confirmed } else t
            { t with miss_count := 0 }
          else t
        | none => track
      (track1, some (m.toNat, robot.setTrack track1))

/-- The match loop of `Tracker::update`: walks the tracks paired with
the assignment result in order, threading the robot list (mutated by
`robot.setTrack`) and accumulating `matched_robot_indices` in push-back
order.  Tracks beyond the length of the match result are left untouched,
as in the source where the loop bound is `match_result.size()`. -/
def processMatches (init_thresh miss_thresh : ℤ) (class_num : ℕ) :
    List Track → List ℤ → List Robot → List ℕ → List Track × List Robot × List ℕ
  | ts, [], robots, matched => (ts, robots, matched)
  | [], _ :: _, robots, matched => ([], robots, matched)
  | t :: ts, m :: ms, robots, matched =>
    let (t', upd) := processTrack init_thresh miss_thresh class_num t m robots
    match upd with
    | none =>
      let (ts', rs', ms') := processMatches init_thresh miss_thresh class_num ts ms robots matched
      (t' :: ts', rs', ms')
    | some (idx, r') =>
      let robots' := robots.set idx r'
      let (ts', rs', ms') :=
        processMatches init_thresh miss_thresh class_num ts ms robots' (matched ++ [idx])
      (t' :: ts', rs', ms')

/-- `unmatched_robot_indices` (tracker.cpp lines 175-181): start from
`iota(0..n)`, sort the matched indices descending, and erase at each
matched index in that order. -/
def unmatchedIndices (n : ℕ) (matched : List ℕ) : List ℕ :=
  (matched.insertionSort (fun a b => b ≤ a)).foldl
    (fun l idx => l.eraseIdx idx) (List.range n)

/-- The new-track loop of `Tracker::update` (tracker.cpp lines 184-196):
for each unmatched robot that is both detected and located, create a
Tentative track with the next id, write it back into the robot, and
append it to the track list. -/
def initNewTracks (ts : ℤ) (class_num : ℕ) :
    List ℕ → List Track → List Robot → ℤ → List Track × List Robot × ℤ
  | [], tracks, robots, id => (tracks, robots, id)
  | idx :: rest, tracks, robots, id =>
    match robots.get? idx with
    | none => initNewTracks ts class_num rest tracks robots id
    | some robot =>
      if robot.isDetected ∧ robot.isLocated then
        match robot.location with
        | some loc =>
          let track := Track.create loc (robot.feature class_num) ts id
          let robot' := robot.setTrack track
          initNewTracks ts class_num rest (tracks ++ [track]) (robots.set idx robot') (id + 1)
        | none => initNewTracks ts class_num rest tracks robots id
      else initNewTracks ts class_num rest tracks robots id

/-- `Tracker::update` (tracker.cpp lines 121-203): predict every track,
process the assignment result, create tracks from unmatched
detected-and-located robots, and erase every Deleted track.  The auction
result `ms` is a parameter (see `Tracker`). -/
def Tracker.update (tr : Tracker) (robots : List Robot) (ts : ℤ) (ms : List ℤ) :
    Tracker × List Robot :=
  let tracks1 := tr.tracks.map (fun t => t.predict ts)
  let (tracks2, robots2, matched) :=
    processMatches tr.init_thresh tr.miss_thresh tr.class_num tracks1 ms robots []
  let (tracks3, robots3, newId) :=
    initNewTracks ts tr.class_num (unmatchedIndices robots2.length matched)
      tracks2 robots2 tr.latest_id
  ({ tr with tracks := tracks3.filter (fun t => decide ¬ t.isDeleted), latest_id := newId },
   robots3)

/-- C-style `float → int` conversion: truncation toward zero. -/
def cvTrunc (q : ℚ) : ℤ :=
  if 0 ≤ q then ⌊q⌋ else -⌊-q⌋

/-- OpenCV `saturate_cast<int>(float)` (`cvRound`): round to nearest,
ties to even; applied when a `cv::Rect2f` is converted to `cv::Rect`. -/
def cvRound (q : ℚ) : ℤ :=
  let f := ⌊q⌋
  let r := q - (f : ℚ)
  if r < 1 / 2 then f
  else if 1 / 2 < r then f + 1
  else if f % 2 = 0 then f else f + 1

/-- Conversion of the robot's `cv::Rect2f` to the `cv::Rect` parameter
of `Locator::zoom`. -/
def rectToInt (r : RectQ) : RectI :=
  ⟨cvRound r.x, cvRound r.y, cvRound r.width, cvRound r.height⟩

/-- `cv::Rect` intersection (`operator &=`): component-wise max/min;
an empty intersection collapses to the zero rectangle. -/
def rectIntersect (a b : RectI) : RectI :=
  let x := max a.x b.x
  let y := max a.y b.y
  let w := min (a.x + a.width) (b.x + b.width) - x
  let h := min (a.y + a.height) (b.y + b.height) - y
  if w ≤ 0 ∨ h ≤ 0 then ⟨0, 0, 0, 0⟩ else ⟨x, y, w, h⟩

/-- A zoomed-resolution float image, indexed `(row, col)`; the model is
a total function so that an out-of-bounds access of the source is
visible as an access at an index outside `[0,height) × [0,width)`. -/
def Img : Type := ℤ → ℤ → ℚ

/-- Pointwise image write. -/
def updImg (f : Img) (i j : ℤ) (x : ℚ) : Img :=
  fun i' j' => if i' = i ∧ j' = j then x else f i' j'

/-- The all-zero image (`setTo(0)`). -/
def zeroImg : Img := fun _ _ => 0

/-- The configuration of the `Locator` as stored by its constructor
(locate.cpp lines 112-146): zoomed image size, zoom factor, intrinsic
and lidar-to-camera matrices, and the derived members the constructor
computes once (`intrinsic_inv_`, `camera_to_lidar_rotate_`,
`camera_to_lidar_translate_`, `camera_to_world_transform_`).  The
derived members are stored as given fields; no claim depends on them
being actual inverses. -/
structure LocParams where
  widthZoomed : ℤ
  heightZoomed : ℤ
  zoom : ℚ
  intrinsic : Fin 3 → Fin 3 → ℚ
  lidarToCameraT : Fin 4 → Fin 4 → ℚ
  intrinsicInv : Fin 3 → Fin 3 → ℚ
  cameraToLidarRot : Fin 3 → Fin 3 → ℚ
  cameraToLidarTrans : Fin 3 → ℚ
  cameraToWorldT : Fin 4 → Fin 4 → ℚ
  minDepthDiff : ℚ
  maxDepthDiff : ℚ
  maxDistance : ℚ
  queueSize : ℕ

/-- `Locator::lidarToCamera` (locate.cpp lines 73-81): apply the
lidar-to-camera transform to the homogeneous point, multiply by the
intrinsic, and return `(u·zoom/depth, v·zoom/depth, depth)`. -/
def lidarToCamera (P : LocParams) (p : V3) : V3 :=
  let c0 := P.lidarToCameraT 0 0 * p.x + P.lidarToCameraT 0 1 * p.y +
    P.lidarToCameraT 0 2 * p.z + P.lidarToCameraT 0 3
  let c1 := P.lidarToCameraT 1 0 * p.x + P.lidarToCameraT 1 1 * p.y +
    P.lidarToCameraT 1 2 * p.z + P.lidarToCameraT 1 3
  let c2 := P.lidarToCameraT 2 0 * p.x + P.lidarToCameraT 2 1 * p.y +
    P.lidarToCameraT 2 2 * p.z + P.lidarToCameraT 2 3
  let q0 := P.intrinsic 0 0 * c0 + P.intrinsic 0 1 * c1 + P.intrinsic 0 2 * c2
  let q1 := P.intrinsic 1 0 * c0 + P.intrinsic 1 1 * c1 + P.intrinsic 1 2 * c2
  let q2 := P.intrinsic 2 0 * c0 + P.intrinsic 2 1 * c1 + P.intrinsic 2 2 * c2
  ⟨q0 * P.zoom / q2, q1 * P.zoom / q2, q2⟩

/-- `Locator::cameraToLidar` (locate.cpp lines 54-61): unzoom the pixel,
back-project by `K⁻¹ · depth`, translate, rotate. -/
def cameraToLidar (P : LocParams) (pt : V3) : V3 :=
  let cc0 := pt.x / P.zoom
  let cc1 := pt.y / P.zoom
  let cc2 : ℚ := 1
  let b0 := pt.z * (P.intrinsicInv 0 0 * cc0 + P.intrinsicInv 0 1 * cc1 + P.intrinsicInv 0 2 * cc2) +
    P.cameraToLidarTrans 0
  let b1 := pt.z * (P.intrinsicInv 1 0 * cc0 + P.intrinsicInv 1 1 * cc1 + P.intrinsicInv 1 2 * cc2) +
    P.cameraToLidarTrans 1
  let b2 := pt.z * (P.intrinsicInv 2 0 * cc0 + P.intrinsicInv 2 1 * cc1 + P.intrinsicInv 2 2 * cc2) +
    P.cameraToLidarTrans 2
  ⟨P.cameraToLidarRot 0 0 * b0 + P.cameraToLidarRot 0 1 * b1 + P.cameraToLidarRot 0 2 * b2,
   P.cameraToLidarRot 1 0 * b0 + P.cameraToLidarRot 1 1 * b1 + P.cameraToLidarRot 1 2 * b2,
   P.cameraToLidarRot 2 0 * b0 + P.cameraToLidarRot 2 1 * b1 + P.cameraToLidarRot 2 2 * b2⟩

/-- `Locator::lidarToWorld` (locate.cpp lines 37-42): camera-to-world
times lidar-to-camera applied to the homogeneous point. -/
def lidarToWorld (P : LocParams) (p : V3) : V3 :=
  let h0 := P.lidarToCameraT 0 0 * p.x + P.lidarToCameraT 0 1 * p.y +
    P.lidarToCameraT 0 2 * p.z + P.lidarToCameraT 0 3
  let h1 := P.lidarToCameraT 1 0 * p.x + P.lidarToCameraT 1 1 * p.y +
    P.lidarToCameraT 1 2 * p.z + P.lidarToCameraT 1 3
  let h2 := P.lidarToCameraT 2 0 * p.x + P.lidarToCameraT 2 1 * p.y +
    P.lidarToCameraT 2 2 * p.z + P.lidarToCameraT 2 3
  let h3 := P.lidarToCameraT 3 0 * p.x + P.lidarToCameraT 3 1 * p.y +
    P.lidarToCameraT 3 2 * p.z + P.lidarToCameraT 3 3
  ⟨P.cameraToWorldT 0 0 * h0 + P.cameraToWorldT 0 1 * h1 +
     P.cameraToWorldT 0 2 * h2 + P.cameraToWorldT 0 3 * h3,
   P.cameraToWorldT 1 0 * h0 + P.cameraToWorldT 1 1 * h1 +
     P.cameraToWorldT 1 2 * h2 + P.cameraToWorldT 1 3 * h3,
   P.cameraToWorldT 2 0 * h0 + P.cameraToWorldT 2 1 * h1 +
     P.cameraToWorldT 2 2 * h2 + P.cameraToWorldT 2 3 * h3⟩

/-- The mutable state of the `Locator`: the three depth images, the
depth-image queue, the foreground cloud, the pixel-to-point index map
(`point_index_map_`) and the point-to-cluster map
(`index_cluster_map_`). -/
structure LocState where
  background : Img
  depth : Img
  diff : Img
  queue : List Img
  foreground : List V3
  pim : List ((ℤ × ℤ) × ℕ)
  icm : List (ℕ × ℕ)

/-- The per-point body of `Locator::update` (locate.cpp lines 175-193):
skip all-zero points, skip points beyond `max_distance_`, project, skip
when the guard `u < 0 || u > width || v < 0 || v > height` fires, then
update `background_depth[v,u] ← max(·, d)` and write
`depth_image[v,u] ← d`.  The returned pair also reports the `(row, col)`
index the point wrote to, if any. -/
def processPoint (P : LocParams) (st : LocState) (p : V3) : LocState × Option (ℤ × ℤ) :=
  if p.x = 0 ∧ p.y = 0 ∧ p.z = 0 then (st, none)
  else if P.maxDistance < p.x then (st, none)
  else
    let uvd := lidarToCamera P p
    if uvd.x < 0 ∨ (P.widthZoomed : ℚ) < uvd.x ∨ uvd.y < 0 ∨ (P.heightZoomed : ℚ) < uvd.y then
      (st, none)
    else
      let v := cvTrunc uvd.y
      let u := cvTrunc uvd.x
      let bg := st.background v u
      let bg' := if bg < uvd.z then uvd.z else bg
      ({ st with background := updImg st.background v u bg',
                 depth := updImg st.depth v u uvd.z },
       some (v, u))

/-- One iteration of the projection loop of `Locator::update`: process
the point and append its write index, if any, to the trace. -/
def pointStep (P : LocParams) (acc : LocState × List (ℤ × ℤ)) (p : V3) :
    LocState × List (ℤ × ℤ) :=
  let (s', w) := processPoint P acc.1 p
  (s', match w with | none => acc.2 | some iw => acc.2 ++ [iw])

/-- The row indices `0 ≤ i < height` of the zoomed image. -/
def rowIdxs (P : LocParams) : List ℤ :=
  (List.range P.heightZoomed.toNat).map Int.ofNat

/-- The column indices `0 ≤ j < width` of the zoomed image. -/
def colIdxs (P : LocParams) : List ℤ :=
  (List.range P.widthZoomed.toNat).map Int.ofNat

/-- One frame of the differential-image rebuild of `Locator::update`
(locate.cpp lines 202-218): for each non-zero pixel of the frame whose
difference to the background lies in the depth band, copy the frame
value into the differential image. -/
def applyFrameDiff (P : LocParams) (bg : Img) (frame : Img) (dimg : Img) : Img :=
  (rowIdxs P).foldl (fun d i =>
    (colIdxs P).foldl (fun d j =>
      let value := frame i j
      if value = 0 then d
      else
        let df := bg i j - value
        if P.minDepthDiff ≤ df ∧ df ≤ P.maxDepthDiff then updImg d i j value else d) d) dimg

/-- `Locator::update` (locate.cpp lines 158-220): zero the two working
images, bail out on a null or empty cloud, project every point, push the
depth image into the bounded queue, and rebuild the differential image
from every queued frame.  Alongside the new state, the list of `(row,
col)` indices written by the projection loop is returned, so that claims
about which pixels are addressed can be stated. -/
def Locator.update (P : LocParams) (st : LocState) (cloud : Option (List V3)) :
    LocState × List (ℤ × ℤ) :=
  let st0 := { st with depth := zeroImg, diff := zeroImg }
  match cloud with
  | none => (st0, [])
  | some [] => (st0, [])
  | some pts =>
    let (st1, ws) := pts.foldl (pointStep P) (st0, [])
    let q1 := st1.queue ++ [st1.depth]
    let q2 := if P.queueSize < q1.length then q1.drop 1 else q1
    let diff2 := q2.foldl (fun d frame => applyFrameDiff P st1.background frame d) st1.diff
    ({ st1 with queue := q2, diff := diff2 }, ws)

/-- The inner (column) step of the pixel scan of `Locator::cluster`:
a non-zero differential pixel `(row i, col j)` is back-projected,
appended to the foreground cloud, and `point_index_map_[(j, i)]` is set
to its index. -/
def clusterColStep (P : LocParams) (diff : Img) (i : ℤ)
    (acc : List V3 × List ((ℤ × ℤ) × ℕ)) (j : ℤ) : List V3 × List ((ℤ × ℤ) × ℕ) :=
  let value := diff i j
  if value = 0 then acc
  else
    let lp := cameraToLidar P ⟨(j : ℚ), (i : ℚ), value⟩
    let fg' := acc.1 ++ [lp]
    (fg', acc.2 ++ [((j, i), fg'.length - 1)])

/-- The outer (row) step of the pixel scan of `Locator::cluster`. -/
def clusterRowStep (P : LocParams) (diff : Img)
    (acc : List V3 × List ((ℤ × ℤ) × ℕ)) (i : ℤ) : List V3 × List ((ℤ × ℤ) × ℕ) :=
  (colIdxs P).foldl (clusterColStep P diff i) acc

/-- The pixel scan of `Locator::cluster` (locate.cpp lines 237-250):
collect every non-zero pixel of the differential image in row-major
order, back-projecting it into the foreground cloud and recording
`point_index_map_[(u,v)] = index`. -/
def scanPixels (P : LocParams) (diff : Img) : List V3 × List ((ℤ × ℤ) × ℕ) :=
  (rowIdxs P).foldl (clusterRowStep P diff) ([], [])

/-- `unordered_map::emplace`: insert only when the key is absent. -/
def emplaceNat (m : List (ℕ × ℕ)) (k v : ℕ) : List (ℕ × ℕ) :=
  if (m.lookup k).isSome then m else m ++ [(k, v)]

/-- `Locator::cluster` (locate.cpp lines 231-264): clear the maps and
the foreground cloud, scan the differential image, and, when the
foreground is non-empty, run Euclidean clustering and fill
`index_cluster_map_`.  The PCL `EuclideanClusterExtraction` is an
external library; the clusters it extracts are passed in as
`extractFn`. -/
def Locator.cluster (P : LocParams) (extractFn : List V3 → List (List ℕ))
    (st : LocState) : LocState :=
  let fp := scanPixels P st.diff
  let fg := fp.1
  let pim := fp.2
  if fg.isEmpty then
    { st with foreground := fg, pim := pim, icm := [] }
  else
    let clusters := extractFn fg
    let icm := clusters.enum.foldl
      (fun m ci => ci.2.foldl (fun m idx => emplaceNat m idx ci.1) m) []
    { st with foreground := fg, pim := pim, icm := icm }

/-- `Locator::zoom` (locate.cpp lines 337-350): scale the rectangle
about its center, then intersect with the zoomed image bounds. -/
def zoomRect (P : LocParams) (rect : RectI) : RectI :=
  let cx : ℚ := (rect.x : ℚ) * P.zoom + (rect.width : ℚ) * P.zoom * (1 / 2)
  let cy : ℚ := (rect.y : ℚ) * P.zoom + (rect.height : ℚ) * P.zoom * (1 / 2)
  let rw : ℤ := cvTrunc ((rect.width : ℚ) * P.zoom)
  let rh : ℤ := cvTrunc ((rect.height : ℚ) * P.zoom)
  let rx : ℤ := cvTrunc (cx - (rw : ℚ) * (1 / 2))
  let ry : ℤ := cvTrunc (cy - (rh : ℚ) * (1 / 2))
  rectIntersect ⟨rx, ry, rw, rh⟩ ⟨0, 0, P.widthZoomed, P.heightZoomed⟩

/-- Candidate map of `Locator::search`: a `std::map<int, vector>` kept
sorted by cluster id, appending each new point to its cluster's list. -/
def candInsert : List (ℤ × List V3) → ℤ → V3 → List (ℤ × List V3)
  | [], k, p => [(k, [p])]
  | (k0, ps) :: rest, k, p =>
    if k < k0 then (k, [p]) :: (k0, ps) :: rest
    else if k = k0 then (k0, ps ++ [p]) :: rest
    else (k0, ps) :: candInsert rest k p

/-- `std::max_element` over the candidate map comparing list sizes:
returns the first entry with the largest point list. -/
def maxCand : (ℤ × List V3) → List (ℤ × List V3) → (ℤ × List V3)
  | best, [] => best
  | best, c :: rest => maxCand (if best.2.length < c.2.length then c else best) rest

/-- The inner (column) loop of the pixel scan of `Locator::search`
(locate.cpp lines 286-297).  A failing `point_index_map_.at` lookup
throws in the source; it is modelled as `Except.error`. -/
def searchScanCols (P : LocParams) (st : LocState) (v : ℤ) :
    List ℤ → List (ℤ × List V3) → Except Unit (List (ℤ × List V3))
  | [], cands => Except.ok cands
  | u :: rest, cands =>
    let depthv := st.diff v u
    if depthv = 0 then searchScanCols P st v rest cands
    else
      match st.pim.lookup (u, v) with
      | none => Except.error ()
      | some idx =>
        let cid : ℤ := match st.icm.lookup idx with
          | some c => Int.ofNat c
          | none => -1
        searchScanCols P st v rest
          (candInsert cands cid (cameraToLidar P ⟨(u : ℚ), (v : ℚ), depthv⟩))

/-- The outer (row) loop of the pixel scan of `Locator::search`
(locate.cpp lines 284-298). -/
def searchScanRows (P : LocParams) (st : LocState) (us : List ℤ) :
    List ℤ → List (ℤ × List V3) → Except Unit (List (ℤ × List V3))
  | [], cands => Except.ok cands
  | v :: rest, cands =>
    match searchScanCols P st v us cands with
    | Except.error e => Except.error e
    | Except.ok cands' => searchScanRows P st us rest cands'

/-- The pixel indices `[a, a + len)` of a rectangle side. -/
def sideIdxs (a : ℤ) (len : ℤ) : List ℤ :=
  (List.range len.toNat).map (fun k => a + Int.ofNat k)

/-- `Locator::search` (locate.cpp lines 276-311): bail out without a
rect; scan the zoomed rect, grouping candidate points by cluster id;
bail out when no candidate was found; otherwise pick the largest
cluster, average it, and set the robot's location to the world-frame
centroid. -/
def Locator.search (P : LocParams) (st : LocState) (robot : Robot) : Except Unit Robot :=
  match robot.rect with
  | none => Except.ok robot
  | some rectF =>
    let rect := zoomRect P (rectToInt rectF)
    match searchScanRows P st (sideIdxs rect.x rect.width) (sideIdxs rect.y rect.height) [] with
    | Except.error e => Except.error e
    | Except.ok cands =>
      match cands with
      | [] => Except.ok robot
      | c :: rest =>
        let points := (maxCand c rest).2
        let s := points.foldl (fun (acc : V3) p => ⟨acc.x + p.x, acc.y + p.y, acc.z + p.z⟩)
          ⟨0, 0, 0⟩
        let n : ℚ := (points.length : ℚ)
        let centroid : V3 := ⟨s.x / n, s.y / n, s.z / n⟩
        Except.ok (robot.setLocation (lidarToWorld P centroid))

/-- The locator state after a sequence of `update` calls. -/
def updateSeq (P : LocParams) (st : LocState) (clouds : List (Option (List V3))) : LocState :=
  clouds.foldl (fun s c => (Locator.update P s c).1) st

/-- The 3×3 identity matrix. -/
def id3 : Fin 3 → Fin 3 → ℚ := fun i j => if i = j then 1 else 0

/-- The 4×4 identity matrix. -/
def id4 : Fin 4 → Fin 4 → ℚ := fun i j => if i = j then 1 else 0

/-- A concrete `Locator` configuration with identity calibration, a 4×4
zoomed image, zoom factor 1, depth band `[0, 100]`, max distance 100 and
queue size 2; used to evaluate the embedding on concrete inputs. -/
def paramsId : LocParams :=
  { widthZoomed := 4, heightZoomed := 4, zoom := 1,
    intrinsic := id3, lidarToCameraT := id4, intrinsicInv := id3,
    cameraToLidarRot := id3, cameraToLidarTrans := fun _ => 0,
    cameraToWorldT := id4, minDepthDiff := 0, maxDepthDiff := 100,
    maxDistance := 100, queueSize := 2 }

/-- The all-zero locator state. -/
def emptyLocState : LocState :=
  { background := zeroImg, depth := zeroImg, diff := zeroImg,
    queue := [], foreground := [], pim := [], icm := [] }

/-- A Confirmed track with one accumulated miss, used to evaluate the
match branch of `Tracker::update` on a concrete input. -/
def trackConfMiss1 : Track :=
  { state := TrackState.Confirmed, init_count := 2, miss_count := 1,
    location := ⟨0, 0, 0⟩, label := 1, features := [], track_id := 0,
    timestamp := 0, last_measurement := none }

/-- A located and detected robot observation at `(1, 0, 0)`. -/
def robotLoc1 : Robot :=
  { rect := none, label := some 0, confidence := some 1,
    armors := some [⟨0, 0, 1, 1, 0, 1⟩], location := some ⟨1, 0, 0⟩,
    track_state := none }

/-- A concrete car detection used to evaluate `Robot::setDetection`. -/
def carW : Detection := ⟨5, 6, 10, 10, 0, 1⟩

/-- Two concrete armor detections: label 2 with confidence 1/2 and
label 1 with confidence 3/4, so label 1 wins the vote. -/
def armorsW : List Detection := [⟨0, 0, 1, 1, 2, 1 / 2⟩, ⟨1, 1, 2, 2, 1, 3 / 4⟩]

/-- The distance score computed inside `Tracker::calculateCost`
(tracker.cpp lines 96-100), over `ℝ` because of `std::exp`:
`distance < thresh ? 1 : distance < 2·thresh ? -1/(2·thresh)·distance +
1.5 : 0.5·exp(2 − distance/thresh)`. -/
noncomputable def distanceScore (distance_thresh distance : ℝ) : ℝ :=
  if distance < distance_thresh then 1
  else if distance < 2 * distance_thresh then
    -1 / (2 * distance_thresh) * distance + 1.5
  else 0.5 * Real.exp (2 - distance / distance_thresh)

/-- The distance score including the located check of
`Tracker::calculateCost` (tracker.cpp lines 91-101): a robot that is not
located scores 0. -/
noncomputable def distanceScoreLocated (distance_thresh : ℝ) (located : Bool)
    (distance : ℝ) : ℝ :=
  if located then distanceScore distance_thresh distance else 0

/-- C3: `Robot.setTrack(track)` copies the track's state into
`track_state`; a Confirmed track overwrites the robot's label and
location with the track's values even when present; a Tentative track
assigns label and location only to the fields the robot does not already
have, leaving present fields unchanged. -/
theorem C3_setTrack_spec (r : Robot) (t : Track) :
    ((r.setTrack t).track_state = some t.state) ∧
    (t.state = TrackState.Confirmed →
      (r.setTrack t).label = some t.label ∧ (r.setTrack t).location = some t.location) ∧
    (t.state = TrackState.Tentative →
      ((r.setTrack t).label = if r.label.isSome then r.label else some t.label) ∧
      ((r.setTrack t).location = if r.location.isSome then r.location else some t.location)) := by
  unfold Robot.setTrack
  refine ⟨?_, fun h => ?_, fun h => ?_⟩
  · by_cases h : t.state = TrackState.Confirmed <;> simp [h]
  · simp [h]
  · have h' : t.state ≠ TrackState.Confirmed := by simp [h]
    simp [h']

/-- Witness for C3: a robot that already has a label but no location,
written back from a Tentative track, keeps its own label and takes the
track's location; the same robot written from a Confirmed track takes
both of the track's values. -/
theorem C3_setTrack_witness :
    ((Robot.setTrack
        { Robot.empty with label := some 5 }
        { state := TrackState.Tentative, init_count := 0, miss_count := 0,
          location := ⟨1, 2, 3⟩, label := 3, features := [], track_id := 0,
          timestamp := 0, last_measurement := none }).label = some 5 ∧
      (Robot.setTrack
        { Robot.empty with label := some 5 }
        { state := TrackState.Tentative, init_count := 0, miss_count := 0,
          location := ⟨1, 2, 3⟩, label := 3, features := [], track_id := 0,
          timestamp := 0, last_measurement := none }).location = some ⟨1, 2, 3⟩) ∧
    ((Robot.setTrack
        { Robot.empty with label := some 5 }
        { state := TrackState.Confirmed, init_count := 0, miss_count := 0,
          location := ⟨1, 2, 3⟩, label := 3, features := [], track_id := 0,
          timestamp := 0, last_measurement := none }).label = some 3) := by
  refine ⟨?_, ?_⟩
  · have h := C3_setTrack_spec
      { Robot.empty with label := some 5 }
      { state := TrackState.Tentative, init_count := 0, miss_count := 0,
        location := ⟨1, 2, 3⟩, label := 3, features := [], track_id := 0,
        timestamp := 0, last_measurement := none }
    have h2 := h.2.2 rfl
    exact ⟨by rw [h2.1]; decide, by rw [h2.2]; decide⟩
  · have h := C3_setTrack_spec
      { Robot.empty with label := some 5 }
      { state := TrackState.Confirmed, init_count := 0, miss_count := 0,
        location := ⟨1, 2, 3⟩, label := 3, features := [], track_id := 0,
        timestamp := 0, last_measurement := none }
    exact (h.2.1 rfl).1

lemma processPoint_background_mono (P : LocParams) (st : LocState) (p : V3) (i j : ℤ) :
    st.background i j ≤ ((processPoint P st p).1).background i j := by
  unfold processPoint
  split
  · exact le_refl _
  · split
    · exact le_refl _
    · dsimp only
      split
      · exact le_refl _
      · simp only [updImg]
        split
        · next h =>
          obtain ⟨hi, hj⟩ := h
          subst hi; subst hj
          split
          · next hlt => exact le_of_lt hlt
          · exact le_refl _
        · exact le_refl _

lemma pointFold_background_mono (P : LocParams) (pts : List V3)
    (acc : LocState × List (ℤ × ℤ)) (i j : ℤ) :
    (acc.1).background i j ≤ ((pts.foldl (pointStep P) acc).1).background i j := by
  induction pts generalizing acc with
  | nil => exact le_refl _
  | cons p rest ih =>
    refine le_trans ?_ (ih (pointStep P acc p))
    unfold pointStep
    exact processPoint_background_mono P acc.1 p i j

lemma update_background_mono (P : LocParams) (st : LocState) (cloud : Option (List V3))
    (i j : ℤ) :
    st.background i j ≤ ((Locator.update P st cloud).1).background i j := by
  unfold Locator.update
  match cloud with
  | none => exact le_refl _
  | some [] => exact le_refl _
  | some (p :: ps) =>
    exact pointFold_background_mono P (p :: ps) ({ st with depth := zeroImg, diff := zeroImg }, []) i j

/-- C8: `background_depth[v,u]` is non-decreasing across calls to
`Locator.update`: a single update never lowers a background cell (the
cell is only written when the projected depth exceeds the stored value),
and hence the stored value is non-decreasing over any sequence of
updates. -/
theorem C8_background_nondecreasing (P : LocParams) (st : LocState)
    (cloud : Option (List V3)) (clouds : List (Option (List V3))) (i j : ℤ) :
    st.background i j ≤ ((Locator.update P st cloud).1).background i j ∧
    st.background i j ≤ (updateSeq P st clouds).background i j := by
  constructor
  · exact update_background_mono P st cloud i j
  · unfold updateSeq
    induction clouds generalizing st with
    | nil => exact le_refl _
    | cons c rest ih =>
      exact le_trans (update_background_mono P st c i j) (ih ((Locator.update P st c).1))

lemma searchScanCols_all_zero (P : LocParams) (st : LocState) (v : ℤ) (us : List ℤ)
    (cands : List (ℤ × List V3)) (h : ∀ u ∈ us, st.diff v u = 0) :
    searchScanCols P st v us cands = Except.ok cands := by
  induction us with
  | nil => rfl
  | cons u rest ih =>
    unfold searchScanCols
    have hu : st.diff v u = 0 := h u (List.mem_cons_self u rest)
    simp only [hu, if_pos rfl]
    exact ih (fun u' hu' => h u' (List.mem_cons_of_mem u hu'))

lemma searchScanRows_all_zero (P : LocParams) (st : LocState) (us vs : List ℤ)
    (cands : List (ℤ × List V3)) (h : ∀ v ∈ vs, ∀ u ∈ us, st.diff v u = 0) :
    searchScanRows P st us vs cands = Except.ok cands := by
  induction vs generalizing cands with
  | nil => rfl
  | cons v rest ih =>
    unfold searchScanRows
    rw [searchScanCols_all_zero P st v us cands (h v (List.mem_cons_self v rest))]
    exact ih cands (fun v' hv' => h v' (List.mem_cons_of_mem v hv'))

/-- C9: missing inputs are non-fatal and leave outputs unset.
`Locator.update` on a null or empty cloud returns with the depth image
and the differential depth image entirely zero; `Locator.search` on a
robot without a rect returns the robot unchanged, and likewise when
every pixel of the zoomed rect carries zero differential depth (an
empty candidate set) — in all cases without an exception. -/
theorem C9_missing_inputs_nonfatal :
    (∀ (P : LocParams) (st : LocState) (cloud : Option (List V3)),
      cloud = none ∨ cloud = some [] →
      ((Locator.update P st cloud).1).depth = zeroImg ∧
      ((Locator.update P st cloud).1).diff = zeroImg) ∧
    (∀ (P : LocParams) (st : LocState) (r : Robot),
      r.rect = none → Locator.search P st r = Except.ok r) ∧
    (∀ (P : LocParams) (st : LocState) (r : Robot) (rf : RectQ),
      r.rect = some rf →
      (∀ v ∈ sideIdxs (zoomRect P (rectToInt rf)).y (zoomRect P (rectToInt rf)).height,
        ∀ u ∈ sideIdxs (zoomRect P (rectToInt rf)).x (zoomRect P (rectToInt rf)).width,
        st.diff v u = 0) →
      Locator.search P st r = Except.ok r) := by
  refine ⟨?_, ?_, ?_⟩
  · intro P st cloud h
    rcases h with h | h <;> subst h <;> exact ⟨rfl, rfl⟩
  · intro P st r h
    unfold Locator.search
    rw [h]
  · intro P st r rf hrect hzero
    unfold Locator.search
    rw [hrect]
    dsimp only
    rw [searchScanRows_all_zero P st _ _ [] hzero]

/-- Witness for C9: with identity calibration, a 4×4 zoomed image and an
all-zero locator state, a null cloud leaves both working images zero, a
rect-less robot passes through `search` unchanged, and a robot whose
rect covers only zero differential pixels passes through unchanged. -/
theorem C9_missing_inputs_nonfatal_witness :
    (((Locator.update paramsId emptyLocState none).1).depth = zeroImg ∧
      ((Locator.update paramsId emptyLocState none).1).diff = zeroImg) ∧
    (Locator.search paramsId emptyLocState Robot.empty = Except.ok Robot.empty) ∧
    (Locator.search paramsId emptyLocState
        { Robot.empty with rect := some ⟨0, 0, 2, 2⟩ } =
      Except.ok { Robot.empty with rect := some ⟨0, 0, 2, 2⟩ }) := by
  refine ⟨?_, ?_, ?_⟩
  · exact C9_missing_inputs_nonfatal.1 paramsId emptyLocState none (Or.inl rfl)
  · exact C9_missing_inputs_nonfatal.2.1 paramsId emptyLocState Robot.empty rfl
  · exact C9_missing_inputs_nonfatal.2.2 paramsId emptyLocState
      { Robot.empty with rect := some ⟨0, 0, 2, 2⟩ } ⟨0, 0, 2, 2⟩ rfl
      (by intro v hv u hu; rfl)

unseal Rat.mul Rat.inv Rat.add Rat.sub in
/-- C2 (code bug): the in-image guard of `Locator::update` rejects a
projection only when `u > width` (or `v > height`), not when
`u ≥ width`.  With identity calibration, zoom 1 and a 4×4 zoomed image,
the point `(4, 0, 1)` projects to `(u, v, d) = (4, 0, 1)`: `u = 4` is
not a valid column (valid columns are `0 ≤ u < 4`), yet the point is not
skipped and the update writes to `(row, col) = (0, 4)` — one column past
the end of the image row, an out-of-bounds write in the source. -/
theorem C2_update_boundary_write_out_of_bounds :
    lidarToCamera paramsId ⟨4, 0, 1⟩ = ⟨4, 0, 1⟩ ∧
    ¬ ((lidarToCamera paramsId ⟨4, 0, 1⟩).x < (paramsId.widthZoomed : ℚ)) ∧
    (Locator.update paramsId emptyLocState (some [⟨4, 0, 1⟩])).2 = [(0, 4)] ∧
    ¬ ((4 : ℤ) < paramsId.widthZoomed) := by
  refine ⟨by decide, by decide, ?_, by decide⟩
  decide

/-- C7: after `Tracker.update` returns, no track in the tracker's list
is in the Deleted state: the update's final step erases every Deleted
track, and freshly created tracks are Tentative. -/
theorem C7_no_deleted_track_survives (tr : Tracker) (robots : List Robot) (ts : ℤ)
    (ms : List ℤ) (t : Track) (ht : t ∈ ((Tracker.update tr robots ts ms).1).tracks) :
    ¬ t.isDeleted := by
  unfold Tracker.update at ht
  dsimp only at ht
  have := (List.mem_filter.mp ht).2
  exact of_decide_eq_true this

unseal Rat.mul Rat.inv Rat.add Rat.sub in
/-- Witness for C7: a tracker with no tracks fed one detected-and-located
robot creates exactly one Tentative track, and it is not Deleted. -/
theorem C7_no_deleted_track_survives_witness :
    ¬ Track.isDeleted
      { state := TrackState.Tentative, init_count := 0, miss_count := 0,
        location := ⟨1, 0, 0⟩, label := 0, features := [[1]], track_id := 0,
        timestamp := 5, last_measurement := none } :=
  C7_no_deleted_track_survives
    { class_num := 1, init_thresh := 1, miss_thresh := 2, tracks := [], latest_id := 0 }
    [{ rect := none, label := some 0, confidence := some 1,
       armors := some [⟨0, 0, 1, 1, 0, 1⟩], location := some ⟨1, 0, 0⟩,
       track_state := none }]
    5 []
    { state := TrackState.Tentative, init_count := 0, miss_count := 0,
      location := ⟨1, 0, 0⟩, label := 0, features := [[1]], track_id := 0,
      timestamp := 5, last_measurement := none }
    (by decide)

unseal Rat.mul Rat.inv Rat.add Rat.sub in
/-- C1 (code bug): `miss_count_ = 0` sits inside the
`if (track.isTentative())` branch of the matched case of
`Tracker::update`, so a Confirmed track matched to a located robot keeps
its accumulated `miss_count`.  Concretely: a Confirmed track with
`miss_count = 1` matched to the located robot `robotLoc1` has its filter
updated with the robot's location, stays Confirmed, and still has
`miss_count = 1 ≠ 0` after the update. -/
theorem C1_confirmed_match_keeps_miss_count :
    Robot.isLocated robotLoc1 ∧
    ((Tracker.update
        { class_num := 1, init_thresh := 2, miss_thresh := 3,
          tracks := [trackConfMiss1], latest_id := 1 }
        [robotLoc1] 7 [0]).1).tracks.map Track.last_measurement = [some ⟨1, 0, 0⟩] ∧
    ((Tracker.update
        { class_num := 1, init_thresh := 2, miss_thresh := 3,
          tracks := [trackConfMiss1], latest_id := 1 }
        [robotLoc1] 7 [0]).1).tracks.map Track.state = [TrackState.Confirmed] ∧
    ((Tracker.update
        { class_num := 1, init_thresh := 2, miss_thresh := 3,
          tracks := [trackConfMiss1], latest_id := 1 }
        [robotLoc1] 7 [0]).1).tracks.map Track.miss_count = [1] := by
  refine ⟨by decide, ?_, ?_, ?_⟩ <;> decide

lemma distanceScore_low (D d : ℝ) (h : d < D) : distanceScore D d = 1 := by
  unfold distanceScore
  rw [if_pos h]

lemma distanceScore_mid (D d : ℝ) (h1 : D ≤ d) (h2 : d < 2 * D) :
    distanceScore D d = 1.5 - d / (2 * D) := by
  unfold distanceScore
  rw [if_neg (not_lt.mpr h1), if_pos h2]
  ring

lemma distanceScore_high (D d : ℝ) (hD : 0 < D) (h : 2 * D ≤ d) :
    distanceScore D d = 0.5 * Real.exp (2 - d / D) := by
  unfold distanceScore
  rw [if_neg (not_lt.mpr (by linarith)), if_neg (not_lt.mpr h)]

lemma distanceScore_eq_min (D d : ℝ) (hD : 0 < D) (h : d < 2 * D) :
    distanceScore D d = min 1 (-1 / (2 * D) * d + 1.5) := by
  have h2D : (0 : ℝ) < 2 * D := by linarith
  have hlin : -1 / (2 * D) * d + 1.5 = 1.5 - d / (2 * D) := by ring
  rcases lt_or_le d D with hd | hd
  · rw [distanceScore_low D d hd, eq_comm, min_eq_left]
    have hdiv : d / (2 * D) < 1 / 2 := by
      rw [div_lt_iff₀ h2D]; linarith
    linarith
  · rw [distanceScore_mid D d hd h, eq_comm, min_eq_right]
    · linarith
    · have hdiv : 1 / 2 ≤ d / (2 * D) := by
        rw [le_div_iff₀ h2D]; linarith
      linarith

lemma minLinear_continuous (D : ℝ) :
    Continuous (fun x : ℝ => min 1 (-1 / (2 * D) * x + 1.5)) :=
  continuous_const.min (((continuous_const).mul continuous_id).add continuous_const)

lemma expPiece_continuous (D : ℝ) :
    Continuous (fun x : ℝ => 0.5 * Real.exp (2 - x / D)) :=
  continuous_const.mul (Real.continuous_exp.comp (continuous_const.sub (continuous_id.div_const D)))

lemma distanceScore_at_thresh (D : ℝ) (hD : 0 < D) : distanceScore D D = 1 := by
  rw [distanceScore_mid D D (le_refl D) (by linarith)]
  field_simp
  ring

lemma distanceScore_at_double (D : ℝ) (hD : 0 < D) : distanceScore D (2 * D) = 0.5 := by
  rw [distanceScore_high D (2 * D) hD (le_refl _)]
  have hD0 : D ≠ 0 := ne_of_gt hD
  rw [mul_div_assoc, div_self hD0]
  norm_num

lemma distanceScore_continuousAt_thresh (D : ℝ) (hD : 0 < D) :
    ContinuousAt (distanceScore D) D := by
  have hev : (fun x : ℝ => min 1 (-1 / (2 * D) * x + 1.5)) =ᶠ[nhds D] distanceScore D := by
    refine Filter.eventually_of_mem (Iio_mem_nhds (by linarith : D < 2 * D)) ?_
    intro x hx
    exact (distanceScore_eq_min D x hD hx).symm
  exact ((minLinear_continuous D).continuousAt).congr hev

lemma distanceScore_continuousAt_double (D : ℝ) (hD : 0 < D) :
    ContinuousAt (distanceScore D) (2 * D) := by
  refine continuousAt_iff_continuous_left_right.mpr ⟨?_, ?_⟩
  · have hD0 : D ≠ 0 := ne_of_gt hD
    have hlin : -1 / (2 * D) * (2 * D) + 1.5 = 0.5 := by
      field_simp
      ring
    have hend : distanceScore D (2 * D) = min 1 (-1 / (2 * D) * (2 * D) + 1.5) := by
      rw [distanceScore_at_double D hD, hlin,
        min_eq_right (by norm_num : (0.5 : ℝ) ≤ 1)]
    refine ContinuousWithinAt.congr ((minLinear_continuous D).continuousWithinAt) ?_ hend
    intro y hy
    rcases lt_or_eq_of_le (Set.mem_Iic.mp hy) with hlt | heq
    · exact distanceScore_eq_min D y hD hlt
    · subst heq
      exact hend
  · refine ContinuousWithinAt.congr ((expPiece_continuous D).continuousWithinAt) ?_ ?_
    · intro y hy
      exact distanceScore_high D y hD (Set.mem_Ici.mp hy)
    · exact distanceScore_high D (2 * D) hD (le_refl _)

/-- C4: the distance score inside `Tracker.calculateCost` equals 1 for
`d < D`, `1.5 − d/(2D)` for `D ≤ d < 2D`, and `0.5·exp(2 − d/D)` for
`d ≥ 2D`; it is continuous at both breakpoints, taking value 1 at
`d = D` and value 0.5 at `d = 2D`; and the score of a robot that is not
located is 0. -/
theorem C4_distance_score_spec (D d : ℝ) (hD : 0 < D) :
    (d < D → distanceScore D d = 1) ∧
    (D ≤ d → d < 2 * D → distanceScore D d = 1.5 - d / (2 * D)) ∧
    (2 * D ≤ d → distanceScore D d = 0.5 * Real.exp (2 - d / D)) ∧
    distanceScore D D = 1 ∧
    distanceScore D (2 * D) = 0.5 ∧
    ContinuousAt (distanceScore D) D ∧
    ContinuousAt (distanceScore D) (2 * D) ∧
    distanceScoreLocated D false d = 0 := by
  refine ⟨distanceScore_low D d, distanceScore_mid D d,
    distanceScore_high D d hD, distanceScore_at_thresh D hD,
    distanceScore_at_double D hD, distanceScore_continuousAt_thresh D hD,
    distanceScore_continuousAt_double D hD, ?_⟩
  unfold distanceScoreLocated
  simp

/-- Witness for C4: with `D = 1` the score is 1 at `d = 1`, 0.5 at
`d = 2`, and a non-located robot scores 0 at `d = 3`. -/
theorem C4_distance_score_witness :
    (0 : ℝ) < 1 ∧ distanceScore 1 1 = 1 ∧ distanceScore 1 (2 * 1) = 0.5 ∧
    distanceScoreLocated 1 false 3 = 0 :=
  ⟨by norm_num, (C4_distance_score_spec 1 3 (by norm_num)).2.2.2.1,
   (C4_distance_score_spec 1 3 (by norm_num)).2.2.2.2.1,
   (C4_distance_score_spec 1 3 (by norm_num)).2.2.2.2.2.2.2⟩

lemma lookup_cons_self {α β : Type} [BEq α] [LawfulBEq α] (k : α) (b : β)
    (es : List (α × β)) : ((k, b) :: es).lookup k = some b := by
  rw [List.lookup_cons]
  simp

lemma lookup_cons_ne {α β : Type} [BEq α] [LawfulBEq α] (k a : α) (b : β)
    (es : List (α × β)) (h : a ≠ k) : ((k, b) :: es).lookup a = es.lookup a := by
  rw [List.lookup_cons]
  have hb : (a == k) = false := beq_eq_false_iff_ne.mpr h
  simp [hb]

lemma lookup_append_some {α β : Type} [BEq α] (l₁ l₂ : List (α × β)) (a : α) (b : β)
    (h : l₁.lookup a = some b) : (l₁ ++ l₂).lookup a = some b := by
  induction l₁ with
  | nil => simp [List.lookup_nil] at h
  | cons p rest ih =>
    rw [List.cons_append, show p = (p.1, p.2) from rfl, List.lookup_cons]
    rw [show p = (p.1, p.2) from rfl, List.lookup_cons] at h
    cases hb : a == p.1 with
    | true => rw [hb] at h; simpa using h
    | false => rw [hb] at h; exact ih h

lemma lookup_append_none {α β : Type} [BEq α] (l₁ l₂ : List (α × β)) (a : α)
    (h : l₁.lookup a = none) : (l₁ ++ l₂).lookup a = l₂.lookup a := by
  induction l₁ with
  | nil => simp
  | cons p rest ih =>
    rw [List.cons_append, show p = (p.1, p.2) from rfl, List.lookup_cons]
    rw [show p = (p.1, p.2) from rfl, List.lookup_cons] at h
    cases hb : a == p.1 with
    | true => rw [hb] at h; simp at h
    | false => rw [hb] at h; exact ih h

lemma lookup_eq_none_of_lt (m : List (ℤ × ℚ)) (l : ℤ) (h : ∀ p ∈ m, l < p.1) :
    m.lookup l = none := by
  induction m with
  | nil => rfl
  | cons p rest ih =>
    rw [show p = (p.1, p.2) from rfl, List.lookup_cons]
    have hne : l ≠ p.1 := ne_of_lt (h p (List.mem_cons_self p rest))
    have hb : (l == p.1) = false := beq_eq_false_iff_ne.mpr hne
    rw [hb]
    exact ih (fun q hq => h q (List.mem_cons_of_mem p hq))

lemma scoreMapInsert_key_origin (m : List (ℤ × ℚ)) (k : ℤ) (c : ℚ) :
    ∀ q ∈ scoreMapInsert m k c, q.1 = k ∨ ∃ p ∈ m, q.1 = p.1 := by
  induction m with
  | nil =>
    intro q hq
    unfold scoreMapInsert at hq
    rcases List.mem_singleton.mp hq with rfl
    exact Or.inl rfl
  | cons p rest ih =>
    intro q hq
    unfold scoreMapInsert at hq
    by_cases h1 : k < p.1
    · rw [if_pos h1] at hq
      rcases List.mem_cons.mp hq with rfl | hq2
      · exact Or.inl rfl
      · exact Or.inr ⟨q, hq2, rfl⟩
    · rw [if_neg h1] at hq
      by_cases h2 : k = p.1
      · rw [if_pos h2] at hq
        rcases List.mem_cons.mp hq with rfl | hq2
        · exact Or.inr ⟨p, List.mem_cons_self p rest, rfl⟩
        · exact Or.inr ⟨q, List.mem_cons_of_mem p hq2, rfl⟩
      · rw [if_neg h2] at hq
        rcases List.mem_cons.mp hq with rfl | hq2
        · exact Or.inr ⟨p, List.mem_cons_self p rest, rfl⟩
        · rcases ih q hq2 with h | ⟨p', hp', he⟩
          · exact Or.inl h
          · exact Or.inr ⟨p', List.mem_cons_of_mem p hp', he⟩

lemma scoreMapInsert_sorted (m : List (ℤ × ℚ)) (k : ℤ) (c : ℚ)
    (hm : m.Pairwise (fun p q => p.1 < q.1)) :
    (scoreMapInsert m k c).Pairwise (fun p q => p.1 < q.1) := by
  induction m with
  | nil => exact List.pairwise_singleton _ _
  | cons p rest ih =>
    rw [List.pairwise_cons] at hm
    obtain ⟨hhead, hrest⟩ := hm
    unfold scoreMapInsert
    by_cases h1 : k < p.1
    · rw [if_pos h1]
      refine List.pairwise_cons.mpr ⟨?_, List.pairwise_cons.mpr ⟨hhead, hrest⟩⟩
      intro q hq
      rcases List.mem_cons.mp hq with rfl | hq2
      · exact h1
      · exact lt_trans h1 (hhead q hq2)
    · rw [if_neg h1]
      by_cases h2 : k = p.1
      · rw [if_pos h2]
        exact List.pairwise_cons.mpr ⟨hhead, hrest⟩
      · rw [if_neg h2]
        refine List.pairwise_cons.mpr ⟨?_, ih hrest⟩
        intro q hq
        rcases scoreMapInsert_key_origin rest k c q hq with he | ⟨p', hp', he⟩
        · rw [he]
          rcases lt_trichotomy k p.1 with h | h | h
          · exact absurd h h1
          · exact absurd h h2
          · exact h
        · rw [he]
          exact hhead p' hp'

lemma mapval_scoreMapInsert (m : List (ℤ × ℚ)) (k : ℤ) (c : ℚ) (l : ℤ)
    (hm : m.Pairwise (fun p q => p.1 < q.1)) :
    mapval (scoreMapInsert m k c) l = mapval m l + (if l = k then c else 0) := by
  induction m with
  | nil =>
    unfold scoreMapInsert mapval
    by_cases h : l = k
    · subst h
      rw [lookup_cons_self]
      simp
    · rw [lookup_cons_ne k l c [] h]
      simp [h]
  | cons p rest ih =>
    rw [List.pairwise_cons] at hm
    obtain ⟨hhead, hrest⟩ := hm
    unfold scoreMapInsert
    by_cases h1 : k < p.1
    · rw [if_pos h1]
      by_cases h : l = k
      · subst h
        unfold mapval
        rw [lookup_cons_self]
        have hnone : ((p :: rest) : List (ℤ × ℚ)).lookup l = none := by
          refine lookup_eq_none_of_lt _ _ ?_
          intro q hq
          rcases List.mem_cons.mp hq with rfl | hq2
          · exact h1
          · exact lt_trans h1 (hhead q hq2)
        rw [hnone]
        simp
      · unfold mapval
        rw [lookup_cons_ne k l c _ h]
        simp [h]
    · rw [if_neg h1]
      by_cases h2 : k = p.1
      · rw [if_pos h2]
        by_cases h : l = p.1
        · subst h
          unfold mapval
          rw [show p = (p.1, p.2) from rfl, lookup_cons_self, lookup_cons_self]
          simp [← h2]
        · unfold mapval
          rw [lookup_cons_ne p.1 l (p.2 + c) rest h,
            show p = (p.1, p.2) from rfl, lookup_cons_ne p.1 l p.2 rest h]
          have hlk : l ≠ k := fun he => h (he.trans h2)
          simp [hlk]
      · rw [if_neg h2]
        by_cases h : l = p.1
        · subst h
          unfold mapval
          rw [show p = (p.1, p.2) from rfl, lookup_cons_self, lookup_cons_self]
          have hlk : p.1 ≠ k := fun he => h2 he.symm
          simp [hlk]
        · unfold mapval
          rw [show p = (p.1, p.2) from rfl, lookup_cons_ne p.1 l p.2 _ h,
            lookup_cons_ne p.1 l p.2 rest h]
          exact ih hrest

lemma scoreMapInsert_mem_key (m : List (ℤ × ℚ)) (k : ℤ) (c : ℚ) :
    ∃ q ∈ scoreMapInsert m k c, q.1 = k := by
  induction m with
  | nil => exact ⟨(k, c), List.mem_singleton.mpr rfl, rfl⟩
  | cons p rest ih =>
    unfold scoreMapInsert
    by_cases h1 : k < p.1
    · rw [if_pos h1]
      exact ⟨(k, c), List.mem_cons_self _ _, rfl⟩
    · rw [if_neg h1]
      by_cases h2 : k = p.1
      · rw [if_pos h2]
        exact ⟨(p.1, p.2 + c), List.mem_cons_self _ _, h2.symm⟩
      · rw [if_neg h2]
        obtain ⟨q, hq, he⟩ := ih
        exact ⟨q, List.mem_cons_of_mem p hq, he⟩

lemma scoreMapInsert_keeps_key (m : List (ℤ × ℚ)) (k : ℤ) (c : ℚ) (p : ℤ × ℚ)
    (hp : p ∈ m) : ∃ q ∈ scoreMapInsert m k c, q.1 = p.1 := by
  induction m with
  | nil => simp at hp
  | cons p0 rest ih =>
    unfold scoreMapInsert
    by_cases h1 : k < p0.1
    · rw [if_pos h1]
      exact ⟨p, List.mem_cons_of_mem _ hp, rfl⟩
    · rw [if_neg h1]
      by_cases h2 : k = p0.1
      · rw [if_pos h2]
        rcases List.mem_cons.mp hp with rfl | hp2
        · exact ⟨(p.1, p.2 + c), List.mem_cons_self _ _, rfl⟩
        · exact ⟨p, List.mem_cons_of_mem _ hp2, rfl⟩
      · rw [if_neg h2]
        rcases List.mem_cons.mp hp with rfl | hp2
        · exact ⟨p, List.mem_cons_self _ _, rfl⟩
        · obtain ⟨q, hq, he⟩ := ih hp2
          exact ⟨q, List.mem_cons_of_mem p0 hq, he⟩

lemma labelScore_cons (a : Detection) (as : List Detection) (l : ℤ) :
    labelScore (a :: as) l = (if a.label = l then a.confidence else 0) + labelScore as l := by
  unfold labelScore
  by_cases h : a.label = l <;> simp [List.filter_cons, h]

lemma buildScoreMap_fold (as : List Detection) :
    ∀ m : List (ℤ × ℚ), m.Pairwise (fun p q => p.1 < q.1) →
    (as.foldl (fun m a => scoreMapInsert m a.label a.confidence) m).Pairwise
      (fun p q => p.1 < q.1) ∧
    (∀ l, mapval (as.foldl (fun m a => scoreMapInsert m a.label a.confidence) m) l =
      mapval m l + labelScore as l) ∧
    (∀ a ∈ as, ∃ q ∈ as.foldl (fun m a => scoreMapInsert m a.label a.confidence) m,
      q.1 = a.label) ∧
    (∀ p ∈ m, ∃ q ∈ as.foldl (fun m a => scoreMapInsert m a.label a.confidence) m,
      q.1 = p.1) ∧
    (∀ q ∈ as.foldl (fun m a => scoreMapInsert m a.label a.confidence) m,
      (∃ p ∈ m, q.1 = p.1) ∨ ∃ a ∈ as, q.1 = a.label) := by
  induction as with
  | nil =>
    intro m hm
    refine ⟨hm, fun l => by simp [labelScore], fun a ha => absurd ha (List.not_mem_nil a),
      fun p hp => ⟨p, hp, rfl⟩, fun q hq => Or.inl ⟨q, hq, rfl⟩⟩
  | cons a rest ih =>
    intro m hm
    have hm' := scoreMapInsert_sorted m a.label a.confidence hm
    obtain ⟨ihs, ihv, ihmem, ihkeep, ihorig⟩ := ih (scoreMapInsert m a.label a.confidence) hm'
    refine ⟨ihs, ?_, ?_, ?_, ?_⟩
    · intro l
      rw [List.foldl_cons, ihv l, mapval_scoreMapInsert m a.label a.confidence l hm,
        labelScore_cons]
      by_cases h : l = a.label
      · subst h
        simp
        ring
      · have h' : a.label ≠ l := fun he => h he.symm
        simp [h, h']
    · intro b hb
      rcases List.mem_cons.mp hb with rfl | hb2
      · obtain ⟨q0, hq0, he0⟩ := scoreMapInsert_mem_key m b.label b.confidence
        obtain ⟨q, hq, he⟩ := ihkeep q0 hq0
        exact ⟨q, hq, he.trans he0⟩
      · exact ihmem b hb2
    · intro p hp
      obtain ⟨q0, hq0, he0⟩ := scoreMapInsert_keeps_key m a.label a.confidence p hp
      obtain ⟨q, hq, he⟩ := ihkeep q0 hq0
      exact ⟨q, hq, he.trans he0⟩
    · intro q hq
      rcases ihorig q hq with ⟨p0, hp0, he0⟩ | ⟨b, hb, he⟩
      · rcases scoreMapInsert_key_origin m a.label a.confidence p0 hp0 with he1 | ⟨p, hp, he1⟩
        · exact Or.inr ⟨a, List.mem_cons_self a rest, he0.trans he1⟩
        · exact Or.inl ⟨p, hp, he0.trans he1⟩
      · exact Or.inr ⟨b, List.mem_cons_of_mem a hb, he⟩

lemma mapval_of_mem (m : List (ℤ × ℚ)) (hm : m.Pairwise (fun p q => p.1 < q.1))
    (p : ℤ × ℚ) (hp : p ∈ m) : mapval m p.1 = p.2 := by
  induction m with
  | nil => simp at hp
  | cons p0 rest ih =>
    rw [List.pairwise_cons] at hm
    obtain ⟨hhead, hrest⟩ := hm
    rcases List.mem_cons.mp hp with rfl | hp2
    · unfold mapval
      rw [show p = (p.1, p.2) from rfl, lookup_cons_self]
      rfl
    · have hne : p.1 ≠ p0.1 := ne_of_gt (hhead p hp2)
      unfold mapval
      rw [show p0 = (p0.1, p0.2) from rfl, lookup_cons_ne p0.1 p.1 p0.2 rest hne]
      exact ih hrest hp2

lemma maxPair_mem (b : ℤ × ℚ) (l : List (ℤ × ℚ)) : maxPair b l ∈ b :: l := by
  induction l generalizing b with
  | nil => exact List.mem_singleton.mpr rfl
  | cons p rest ih =>
    unfold maxPair
    rcases List.mem_cons.mp (ih (if b.2 < p.2 then p else b)) with he | hm
    · rw [he]
      by_cases h : b.2 < p.2
      · simp only [if_pos h]
        exact List.mem_cons_of_mem b (List.mem_cons_self p rest)
      · simp only [if_neg h]
        exact List.mem_cons_self b _
    · exact List.mem_cons_of_mem b (List.mem_cons_of_mem p hm)

lemma maxPair_max (b : ℤ × ℚ) (l : List (ℤ × ℚ)) :
    ∀ p ∈ b :: l, p.2 ≤ (maxPair b l).2 := by
  induction l generalizing b with
  | nil =>
    intro p hp
    rcases List.mem_singleton.mp hp with rfl
    exact le_refl _
  | cons q rest ih =>
    intro p hp
    unfold maxPair
    have hbase : (if b.2 < q.2 then q else b).2 ≤ (maxPair (if b.2 < q.2 then q else b) rest).2 :=
      ih _ _ (List.mem_cons_self _ _)
    rcases List.mem_cons.mp hp with rfl | hp2
    · refine le_trans ?_ hbase
      by_cases h : p.2 < q.2
      · simp only [if_pos h]
        exact le_of_lt h
      · simp only [if_neg h]
        exact le_refl _
    · rcases List.mem_cons.mp hp2 with rfl | hp3
      · refine le_trans ?_ hbase
        by_cases h : b.2 < p.2
        · simp only [if_pos h]
          exact le_refl _
        · simp only [if_neg h]
          exact not_lt.mp h
      · exact ih _ p (List.mem_cons_of_mem _ hp3)

/-- C5: the assembled Robot has the car's rect; with a non-empty armor
list its label maximises the per-label summed confidence, its confidence
is the winning-label confidence sum divided by the winning-label count,
and its armors are the inputs shifted by the car's top-left corner; with
an empty armor list, label, confidence and armors stay unset. -/
theorem C5_setDetection_spec (car : Detection) (armors : List Detection) :
    (Robot.ofDetection car armors).rect = some ⟨car.x, car.y, car.width, car.height⟩ ∧
    (armors = [] →
      (Robot.ofDetection car armors).label = none ∧
      (Robot.ofDetection car armors).confidence = none ∧
      (Robot.ofDetection car armors).armors = none) ∧
    (armors ≠ [] → ∃ L,
      (Robot.ofDetection car armors).label = some L ∧
      (∃ a ∈ armors, a.label = L) ∧
      (∀ a ∈ armors, labelScore armors a.label ≤ labelScore armors L) ∧
      (Robot.ofDetection car armors).confidence =
        some (labelScore armors L /
          ((armors.countP (fun a => decide (a.label = L)) : ℤ) : ℚ)) ∧
      (Robot.ofDetection car armors).armors =
        some (armors.map (fun a => { a with x := a.x + car.x, y := a.y + car.y }))) := by
  by_cases he : armors = []
  · subst he
    exact ⟨rfl, fun _ => ⟨rfl, rfl, rfl⟩, fun hne => absurd rfl hne⟩
  · have hf : armors.isEmpty = false := by
      simpa [List.isEmpty_iff] using he
    obtain ⟨hsorted, hval, hmem, hkeep, horig⟩ :=
      buildScoreMap_fold armors [] List.Pairwise.nil
    have hval' : ∀ l, mapval (buildScoreMap armors) l = labelScore armors l := by
      intro l
      have := hval l
      unfold buildScoreMap
      simpa [mapval] using this
    obtain ⟨a0, ha0⟩ := List.exists_mem_of_ne_nil armors he
    obtain ⟨q0, hq0, _⟩ := hmem a0 ha0
    have hbne : buildScoreMap armors ≠ [] := by
      intro hcon
      rw [show (armors.foldl (fun m a => scoreMapInsert m a.label a.confidence) []) =
        buildScoreMap armors from rfl, hcon] at hq0
      exact absurd hq0 (List.not_mem_nil q0)
    cases hb : buildScoreMap armors with
    | nil => exact absurd hb hbne
    | cons p rest =>
      have hfold : armors.foldl (fun m a => scoreMapInsert m a.label a.confidence) [] = p :: rest := hb
      have hlab : (Robot.ofDetection car armors).label = some (maxPair p rest).1 := by
        simp [Robot.ofDetection, Robot.setDetection, hf, hb]
      have hrect : (Robot.ofDetection car armors).rect =
          some ⟨car.x, car.y, car.width, car.height⟩ := by
        simp [Robot.ofDetection, Robot.setDetection, hf, hb]
      have hconf : (Robot.ofDetection car armors).confidence =
          some ((maxPair p rest).2 /
            ((armors.countP (fun a => decide (a.label = (maxPair p rest).1)) : ℤ) : ℚ)) := by
        simp [Robot.ofDetection, Robot.setDetection, hf, hb]
      have harm : (Robot.ofDetection car armors).armors =
          some (armors.map (fun a => { a with x := a.x + car.x, y := a.y + car.y })) := by
        simp [Robot.ofDetection, Robot.setDetection, hf, hb]
      have hmaxmem : maxPair p rest ∈ buildScoreMap armors := by
        rw [hb]
        exact maxPair_mem p rest
      have hsorted' : (buildScoreMap armors).Pairwise (fun p q => p.1 < q.1) := hsorted
      have hLscore : labelScore armors (maxPair p rest).1 = (maxPair p rest).2 := by
        rw [← hval' (maxPair p rest).1]
        exact mapval_of_mem _ hsorted' _ hmaxmem
      refine ⟨hrect, fun h => absurd h he, fun _ => ⟨(maxPair p rest).1, hlab, ?_, ?_, ?_, harm⟩⟩
      · rcases horig (maxPair p rest) hmaxmem with ⟨p', hp', _⟩ | ⟨a, ha, hae⟩
        · exact absurd hp' (List.not_mem_nil p')
        · exact ⟨a, ha, hae.symm⟩
      · intro a ha
        obtain ⟨q, hq, hqe⟩ := hmem a ha
        have h1 : labelScore armors a.label = q.2 := by
          rw [← hval' a.label, ← hqe]
          exact mapval_of_mem _ hsorted' q hq
        have h2 : q.2 ≤ (maxPair p rest).2 := by
          refine maxPair_max p rest q ?_
          rw [← hb]
          exact hq
        rw [h1, hLscore]
        exact h2
      · rw [hconf, hLscore]

unseal Rat.mul Rat.inv Rat.add Rat.sub in
/-- Witness for C5: with `carW` and `armorsW` (labels 2 and 1 with
confidences 1/2 and 3/4), the vote picks label 1; with no armors the
label stays unset. -/
theorem C5_setDetection_witness :
    (Robot.ofDetection carW []).label = none ∧
    (Robot.ofDetection carW armorsW).label = some 1 ∧
    labelScore armorsW 2 ≤ labelScore armorsW 1 ∧
    (Robot.ofDetection carW armorsW).confidence =
      some (labelScore armorsW 1 /
        ((armorsW.countP (fun a => decide (a.label = 1)) : ℤ) : ℚ)) := by
  have hemp := (C5_setDetection_spec carW []).2.1 rfl
  obtain ⟨L, h1, _, h3, h4, _⟩ := (C5_setDetection_spec carW armorsW).2.2 (by decide)
  have e : (Robot.ofDetection carW armorsW).label = some 1 := by decide
  have hL : L = 1 := Option.some.inj (h1.symm.trans e)
  subst hL
  exact ⟨hemp.1, h1, h3 ⟨0, 0, 1, 1, 2, 1 / 2⟩ (by decide), h4⟩

lemma getD_replicate_zero (n i : ℕ) : (List.replicate n (0 : ℚ)).getD i 0 = 0 := by
  rw [List.getD_eq_getElem?_getD]
  rcases lt_or_le i n with h | h
  · rw [List.getElem?_eq_getElem (by simpa using h)]
    simp
  · rw [List.getElem?_eq_none (by simpa using h)]
    rfl

lemma getD_set_self (v : List ℚ) (j : ℕ) (x : ℚ) (hj : j < v.length) :
    (v.set j x).getD j 0 = x := by
  rw [List.getD_eq_getElem?_getD, List.getElem?_set]
  simp [hj]

lemma getD_set_ne (v : List ℚ) (j i : ℕ) (x : ℚ) (h : j ≠ i) :
    (v.set j x).getD i 0 = v.getD i 0 := by
  rw [List.getD_eq_getElem?_getD, List.getElem?_set, if_neg h, ← List.getD_eq_getElem?_getD]

lemma sum_set_add (v : List ℚ) (j : ℕ) (c : ℚ) (hj : j < v.length) :
    (v.set j (v.getD j 0 + c)).sum = v.sum + c := by
  induction v generalizing j with
  | nil => simp at hj
  | cons x tail ih =>
    cases j with
    | zero =>
      simp only [List.set_cons_zero, List.sum_cons, List.getD_cons_zero]
      ring
    | succ m =>
      have hm : m < tail.length := by simpa using hj
      simp only [List.set_cons_succ, List.sum_cons, List.getD_cons_succ]
      rw [ih m hm]
      ring

lemma sum_eq_zero_of_all_zero (l : List ℚ) (h : ∀ x ∈ l, x = 0) : l.sum = 0 := by
  induction l with
  | nil => rfl
  | cons x tail ih =>
    rw [List.sum_cons, h x (List.mem_cons_self x tail),
      ih (fun y hy => h y (List.mem_cons_of_mem x hy)), add_zero]

lemma sum_map_div (l : List ℚ) (T : ℚ) : (l.map (· / T)).sum = l.sum / T := by
  induction l with
  | nil => simp
  | cons x tail ih =>
    rw [List.map_cons, List.sum_cons, List.sum_cons, ih, add_div]

lemma sum_map_abs (l : List ℚ) (h : ∀ x ∈ l, 0 ≤ x) :
    (l.map (fun x => |x|)).sum = l.sum := by
  rw [List.map_congr_left (fun x hx => abs_of_nonneg (h x hx))]
  simp

lemma getD_map_div (l : List ℚ) (T : ℚ) (i : ℕ) (hi : i < l.length) :
    (l.map (· / T)).getD i 0 = l.getD i 0 / T := by
  rw [List.getD_eq_getElem?_getD, List.getElem?_map,
    List.getElem?_eq_getElem hi]
  simp [List.getD_eq_getElem?_getD, List.getElem?_eq_getElem hi]

lemma labelScore_nonneg (as : List Detection) (l : ℤ)
    (h : ∀ a ∈ as, 0 ≤ a.confidence) : 0 ≤ labelScore as l := by
  refine List.sum_nonneg ?_
  intro x hx
  obtain ⟨a, ha, rfl⟩ := List.mem_map.mp hx
  exact h a (List.mem_of_mem_filter ha)

lemma featAccum_length (as : List Detection) (v : List ℚ) :
    (as.foldl featStep v).length = v.length := by
  induction as generalizing v with
  | nil => rfl
  | cons a rest ih =>
    rw [List.foldl_cons, ih]
    unfold featStep
    exact List.length_set v _ _

lemma featAccum_getD (as : List Detection) (v : List ℚ) (i : ℕ)
    (hlab : ∀ a ∈ as, 0 ≤ a.label ∧ a.label < (v.length : ℤ)) :
    (as.foldl featStep v).getD i 0 = v.getD i 0 + labelScore as (i : ℤ) := by
  induction as generalizing v with
  | nil => simp [labelScore]
  | cons a rest ih =>
    obtain ⟨hl0, hlt⟩ := hlab a (List.mem_cons_self a rest)
    have hjlen : a.label.toNat < v.length := by omega
    have hstep_len : (featStep v a).length = v.length := List.length_set v _ _
    have hlab' : ∀ b ∈ rest, 0 ≤ b.label ∧ b.label < ((featStep v a).length : ℤ) := by
      intro b hb
      rw [hstep_len]
      exact hlab b (List.mem_cons_of_mem a hb)
    rw [List.foldl_cons, ih (featStep v a) hlab', labelScore_cons]
    by_cases hai : a.label = (i : ℤ)
    · have htn : a.label.toNat = i := by omega
      unfold featStep
      rw [htn, getD_set_self v i _ (htn ▸ hjlen), if_pos hai]
      ring
    · have htn : a.label.toNat ≠ i := by omega
      unfold featStep
      rw [getD_set_ne v _ i _ htn, if_neg hai]
      ring

lemma featAccum_sum (as : List Detection) (v : List ℚ)
    (hlab : ∀ a ∈ as, 0 ≤ a.label ∧ a.label < (v.length : ℤ)) :
    (as.foldl featStep v).sum = v.sum + (as.map (fun a => a.confidence)).sum := by
  induction as generalizing v with
  | nil => simp
  | cons a rest ih =>
    obtain ⟨hl0, hlt⟩ := hlab a (List.mem_cons_self a rest)
    have hjlen : a.label.toNat < v.length := by omega
    have hstep_len : (featStep v a).length = v.length := List.length_set v _ _
    have hlab' : ∀ b ∈ rest, 0 ≤ b.label ∧ b.label < ((featStep v a).length : ℤ) := by
      intro b hb
      rw [hstep_len]
      exact hlab b (List.mem_cons_of_mem a hb)
    rw [List.foldl_cons, ih (featStep v a) hlab']
    unfold featStep
    rw [sum_set_add v _ _ hjlen, List.map_cons, List.sum_cons]
    ring

lemma getD_of_lt (l : List ℚ) (i : ℕ) (hi : i < l.length) : l.getD i 0 = l[i] := by
  rw [List.getD_eq_getElem?_getD, List.getElem?_eq_getElem hi]
  rfl

/-- C6: for non-negative armor confidences (and in-range labels),
`Robot.feature(class_num)` has length `class_num` and L1 norm 0 or 1; it
is the zero vector exactly when the robot is not detected or the armor
confidences sum to zero, and otherwise its `i`-th entry is the summed
confidence of label-`i` armors divided by the total. -/
theorem C6_feature_spec (r : Robot) (n : ℕ)
    (_hwf : r.label.isSome → r.armors.isSome)
    (harm : ∀ a ∈ r.armors.getD [], 0 ≤ a.confidence ∧ 0 ≤ a.label ∧ a.label < (n : ℤ)) :
    (r.feature n).length = n ∧
    (((r.feature n).map (fun x => |x|)).sum = 0 ∨
      ((r.feature n).map (fun x => |x|)).sum = 1) ∧
    ((r.feature n) = List.replicate n 0 ↔
      (r.label = none ∨ ((r.armors.getD []).map (fun a => a.confidence)).sum = 0)) ∧
    (∀ i : ℕ, i < n → r.label.isSome →
      ((r.armors.getD []).map (fun a => a.confidence)).sum ≠ 0 →
      (r.feature n).getD i 0 =
        labelScore (r.armors.getD []) (i : ℤ) /
          ((r.armors.getD []).map (fun a => a.confidence)).sum) := by
  by_cases hdet : r.isDetected
  · have hlabsome : r.label.isSome := hdet
    have hlab' : ∀ a ∈ r.armors.getD [], 0 ≤ a.label ∧
        a.label < ((List.replicate n (0 : ℚ)).length : ℤ) := by
      intro a ha
      rw [List.length_replicate]
      exact ⟨(harm a ha).2.1, (harm a ha).2.2⟩
    have hsum_accum :
        ((r.armors.getD []).foldl featStep (List.replicate n (0 : ℚ))).sum =
          ((r.armors.getD []).map (fun a => a.confidence)).sum := by
      rw [featAccum_sum _ _ hlab']
      simp
    have hget : ∀ i : ℕ,
        ((r.armors.getD []).foldl featStep (List.replicate n (0 : ℚ))).getD i 0 =
          labelScore (r.armors.getD []) (i : ℤ) := by
      intro i
      rw [featAccum_getD _ _ i hlab', getD_replicate_zero]
      ring
    have hlen_accum :
        ((r.armors.getD []).foldl featStep (List.replicate n (0 : ℚ))).length = n := by
      rw [featAccum_length, List.length_replicate]
    by_cases hT : ((r.armors.getD []).map (fun a => a.confidence)).sum = 0
    · have hfeat : r.feature n =
          (r.armors.getD []).foldl featStep (List.replicate n (0 : ℚ)) := by
        unfold Robot.feature
        rw [if_neg (not_not_intro hdet)]
        dsimp only
        rw [if_pos (by rw [hsum_accum]; exact hT)]
      have hconfs0 : ∀ a ∈ r.armors.getD [], a.confidence = 0 := by
        intro a ha
        refine List.all_zero_of_le_zero_le_of_sum_eq_zero ?_ hT
          (List.mem_map_of_mem (fun a => a.confidence) ha)
        intro x hx
        obtain ⟨b, hb, rfl⟩ := List.mem_map.mp hx
        exact (harm b hb).1
      have hscore0 : ∀ i : ℕ, labelScore (r.armors.getD []) (i : ℤ) = 0 := by
        intro i
        refine sum_eq_zero_of_all_zero _ ?_
        intro x hx
        obtain ⟨b, hb, rfl⟩ := List.mem_map.mp hx
        exact hconfs0 b (List.mem_of_mem_filter hb)
      have hzero : ∀ x ∈ (r.armors.getD []).foldl featStep (List.replicate n (0 : ℚ)),
          x = 0 := by
        intro x hx
        obtain ⟨i, hi, hxe⟩ := List.mem_iff_getElem.mp hx
        rw [← hxe, ← getD_of_lt _ i hi, hget i, hscore0 i]
      have hrep : r.feature n = List.replicate n 0 := by
        rw [hfeat]
        exact List.eq_replicate_iff.mpr ⟨hlen_accum, hzero⟩
      refine ⟨by rw [hrep, List.length_replicate], ?_, iff_of_true hrep (Or.inr hT),
        fun i hi hs hTne => absurd hT hTne⟩
      left
      rw [hrep]
      simp
    · have hfeat : r.feature n =
          ((r.armors.getD []).foldl featStep (List.replicate n (0 : ℚ))).map
            (· / ((r.armors.getD []).map (fun a => a.confidence)).sum) := by
        unfold Robot.feature
        rw [if_neg (not_not_intro hdet)]
        dsimp only
        rw [if_neg (by rw [hsum_accum]; exact hT), hsum_accum]
      have hTpos : 0 < ((r.armors.getD []).map (fun a => a.confidence)).sum := by
        refine lt_of_le_of_ne (List.sum_nonneg ?_) (Ne.symm hT)
        intro x hx
        obtain ⟨b, hb, rfl⟩ := List.mem_map.mp hx
        exact (harm b hb).1
      have haccnn : ∀ y ∈ (r.armors.getD []).foldl featStep (List.replicate n (0 : ℚ)),
          0 ≤ y := by
        intro y hy
        obtain ⟨i, hi, hye⟩ := List.mem_iff_getElem.mp hy
        rw [← hye, ← getD_of_lt _ i hi, hget i]
        refine labelScore_nonneg _ _ ?_
        intro a ha
        exact (harm a ha).1
      have hnn : ∀ x ∈ r.feature n, 0 ≤ x := by
        rw [hfeat]
        intro x hx
        obtain ⟨y, hy, rfl⟩ := List.mem_map.mp hx
        exact div_nonneg (haccnn y hy) (le_of_lt hTpos)
      have hsum1 : (r.feature n).sum = 1 := by
        rw [hfeat, sum_map_div, hsum_accum, div_self hT]
      refine ⟨?_, ?_, ?_, ?_⟩
      · rw [hfeat, List.length_map, hlen_accum]
      · right
        rw [sum_map_abs _ hnn, hsum1]
      · refine iff_of_false ?_ ?_
        · intro hrep
          have h0 : (r.feature n).sum = 0 := by
            rw [hrep]
            simp
          rw [hsum1] at h0
          exact one_ne_zero h0
        · intro h
          rcases h with h | h
          · rw [h] at hlabsome
            simp at hlabsome
          · exact hT h
      · intro i hi _ _
        rw [hfeat, getD_map_div _ _ i (by rw [hlen_accum]; exact hi), hget i]
  · have hlabel : r.label = none := by
      simpa [Robot.isDetected] using hdet
    have hfeat : r.feature n = List.replicate n 0 := by
      simp [Robot.feature, hdet]
    refine ⟨by rw [hfeat, List.length_replicate], ?_,
      iff_of_true hfeat (Or.inl hlabel), fun i hi hs => absurd hs hdet⟩
    left
    rw [hfeat]
    simp

unseal Rat.mul Rat.inv Rat.add Rat.sub in
/-- Witness for C6: the robot `robotLoc1` (one armor, label 0,
confidence 1) has a feature vector of length 2 with L1 norm 1. -/
theorem C6_feature_witness :
    (robotLoc1.feature 2).length = 2 ∧
    (((robotLoc1.feature 2).map (fun x => |x|)).sum = 0 ∨
      ((robotLoc1.feature 2).map (fun x => |x|)).sum = 1) :=
  ⟨(C6_feature_spec robotLoc1 2 (by decide) (by decide)).1,
   (C6_feature_spec robotLoc1 2 (by decide) (by decide)).2.1⟩

lemma lookup_isSome_append {α β : Type} [BEq α] (m t : List (α × β)) (k : α)
    (h : (m.lookup k).isSome) : ((m ++ t).lookup k).isSome := by
  cases hm : m.lookup k with
  | none => rw [hm] at h; simp at h
  | some b => rw [lookup_append_some m t k b hm]; rfl

lemma clusterColStep_appendOnly (P : LocParams) (diff : Img) (i : ℤ)
    (acc : List V3 × List ((ℤ × ℤ) × ℕ)) (j : ℤ) :
    ∃ t, (clusterColStep P diff i acc j).2 = acc.2 ++ t := by
  unfold clusterColStep
  by_cases h : diff i j = 0
  · exact ⟨[], by simp [h]⟩
  · refine ⟨[((j, i), (acc.1 ++ [cameraToLidar P ⟨(j : ℚ), (i : ℚ), diff i j⟩]).length - 1)], ?_⟩
    simp [h]

lemma colFold_appendOnly (P : LocParams) (diff : Img) (i : ℤ) (js : List ℤ) :
    ∀ acc, ∃ t, ((js.foldl (clusterColStep P diff i) acc).2) = acc.2 ++ t := by
  induction js with
  | nil => exact fun acc => ⟨[], by simp⟩
  | cons j rest ih =>
    intro acc
    obtain ⟨t1, ht1⟩ := clusterColStep_appendOnly P diff i acc j
    obtain ⟨t2, ht2⟩ := ih (clusterColStep P diff i acc j)
    exact ⟨t1 ++ t2, by rw [List.foldl_cons, ht2, ht1, List.append_assoc]⟩

lemma rowFold_appendOnly (P : LocParams) (diff : Img) (vs : List ℤ) :
    ∀ acc, ∃ t, ((vs.foldl (clusterRowStep P diff) acc).2) = acc.2 ++ t := by
  induction vs with
  | nil => exact fun acc => ⟨[], by simp⟩
  | cons v rest ih =>
    intro acc
    obtain ⟨t1, ht1⟩ := colFold_appendOnly P diff v (colIdxs P) acc
    obtain ⟨t2, ht2⟩ := ih (clusterRowStep P diff acc v)
    refine ⟨t1 ++ t2, ?_⟩
    rw [List.foldl_cons, ht2]
    unfold clusterRowStep
    rw [ht1, List.append_assoc]

lemma colFold_cover (P : LocParams) (diff : Img) (v u : ℤ) (js : List ℤ)
    (hu : u ∈ js) (hnz : diff v u ≠ 0) :
    ∀ acc, (((js.foldl (clusterColStep P diff v) acc).2).lookup (u, v)).isSome := by
  induction js with
  | nil => simp at hu
  | cons j rest ih =>
    intro acc
    by_cases he : j = u
    · subst he
      rw [List.foldl_cons]
      obtain ⟨t, ht⟩ := colFold_appendOnly P diff v rest (clusterColStep P diff v acc j)
      rw [ht]
      refine lookup_isSome_append _ t _ ?_
      unfold clusterColStep
      rw [if_neg hnz]
      dsimp only
      cases hm : acc.2.lookup (j, v) with
      | some b =>
        rw [lookup_append_some _ _ _ b hm]
        rfl
      | none =>
        rw [lookup_append_none _ _ _ hm, lookup_cons_self]
        rfl
    · rw [List.foldl_cons]
      exact ih (List.mem_of_ne_of_mem (fun hh => he hh.symm) hu) _

lemma rowFold_cover (P : LocParams) (diff : Img) (v u : ℤ) (vs : List ℤ)
    (hv : v ∈ vs) (hu : u ∈ colIdxs P) (hnz : diff v u ≠ 0) :
    ∀ acc, (((vs.foldl (clusterRowStep P diff) acc).2).lookup (u, v)).isSome := by
  induction vs with
  | nil => simp at hv
  | cons w rest ih =>
    intro acc
    by_cases he : w = v
    · subst he
      rw [List.foldl_cons]
      obtain ⟨t, ht⟩ := rowFold_appendOnly P diff rest (clusterRowStep P diff acc w)
      rw [ht]
      refine lookup_isSome_append _ t _ ?_
      unfold clusterRowStep
      exact colFold_cover P diff w u (colIdxs P) hu hnz acc
    · rw [List.foldl_cons]
      exact ih (List.mem_of_ne_of_mem (fun hh => he hh.symm) hv) _

lemma cluster_diff (P : LocParams) (f : List V3 → List (List ℕ)) (st : LocState) :
    (Locator.cluster P f st).diff = st.diff := by
  unfold Locator.cluster
  dsimp only
  split <;> rfl

lemma cluster_pim (P : LocParams) (f : List V3 → List (List ℕ)) (st : LocState) :
    (Locator.cluster P f st).pim = (scanPixels P st.diff).2 := by
  unfold Locator.cluster
  dsimp only
  split <;> rfl

lemma mem_sideIdxs (a len u : ℤ) (h : u ∈ sideIdxs a len) : a ≤ u ∧ u < a + len := by
  unfold sideIdxs at h
  obtain ⟨k, hk, he⟩ := List.mem_map.mp h
  rw [List.mem_range] at hk
  rw [Int.ofNat_eq_natCast] at he
  omega

lemma mem_colIdxs_of (P : LocParams) (u : ℤ) (h0 : 0 ≤ u) (hW : u < P.widthZoomed) :
    u ∈ colIdxs P := by
  unfold colIdxs
  refine List.mem_map.mpr ⟨u.toNat, List.mem_range.mpr (by omega), ?_⟩
  simp only [Int.ofNat_eq_natCast]
  omega

lemma mem_rowIdxs_of (P : LocParams) (v : ℤ) (h0 : 0 ≤ v) (hH : v < P.heightZoomed) :
    v ∈ rowIdxs P := by
  unfold rowIdxs
  refine List.mem_map.mpr ⟨v.toNat, List.mem_range.mpr (by omega), ?_⟩
  simp only [Int.ofNat_eq_natCast]
  omega

lemma rectIntersect_img_bounds (a : RectI) (W H : ℤ) :
    rectIntersect a ⟨0, 0, W, H⟩ = ⟨0, 0, 0, 0⟩ ∨
    (0 ≤ (rectIntersect a ⟨0, 0, W, H⟩).x ∧
      (rectIntersect a ⟨0, 0, W, H⟩).x + (rectIntersect a ⟨0, 0, W, H⟩).width ≤ W ∧
      0 ≤ (rectIntersect a ⟨0, 0, W, H⟩).y ∧
      (rectIntersect a ⟨0, 0, W, H⟩).y + (rectIntersect a ⟨0, 0, W, H⟩).height ≤ H) := by
  unfold rectIntersect
  dsimp only
  split
  · exact Or.inl rfl
  · right
    dsimp only
    refine ⟨le_max_right a.x 0, ?_, le_max_right a.y 0, ?_⟩ <;> omega

lemma searchScanCols_ok (P : LocParams) (st : LocState) (v : ℤ) (us : List ℤ)
    (h : ∀ u ∈ us, st.diff v u = 0 ∨ ((st.pim.lookup (u, v)).isSome)) :
    ∀ cands, ∃ c', searchScanCols P st v us cands = Except.ok c' := by
  induction us with
  | nil => exact fun cands => ⟨cands, rfl⟩
  | cons u rest ih =>
    intro cands
    unfold searchScanCols
    rcases h u (List.mem_cons_self u rest) with hz | hs
    · rw [hz]
      simp only [if_pos rfl]
      exact ih (fun u' hu' => h u' (List.mem_cons_of_mem u hu')) cands
    · by_cases hz : st.diff v u = 0
      · rw [hz]
        simp only [if_pos rfl]
        exact ih (fun u' hu' => h u' (List.mem_cons_of_mem u hu')) cands
      · rw [if_neg hz]
        obtain ⟨idx, hidx⟩ := Option.isSome_iff_exists.mp hs
        rw [hidx]
        exact ih (fun u' hu' => h u' (List.mem_cons_of_mem u hu')) _

lemma searchScanRows_ok (P : LocParams) (st : LocState) (us vs : List ℤ)
    (h : ∀ v ∈ vs, ∀ u ∈ us, st.diff v u = 0 ∨ ((st.pim.lookup (u, v)).isSome)) :
    ∀ cands, ∃ c', searchScanRows P st us vs cands = Except.ok c' := by
  induction vs with
  | nil => exact fun cands => ⟨cands, rfl⟩
  | cons v rest ih =>
    intro cands
    unfold searchScanRows
    obtain ⟨c1, hc1⟩ := searchScanCols_ok P st v us (h v (List.mem_cons_self v rest)) cands
    rw [hc1]
    exact ih (fun v' hv' => h v' (List.mem_cons_of_mem v hv')) c1

/-- C10: after `Locator.cluster`, every non-zero pixel of the
differential image has an entry in `point_index_map_`, so the
`point_index_map_.at` lookups performed by `Locator.search` (for the
non-zero pixels of the zoomed, image-clipped rect) always find a key:
`search` run on the clustered state never throws, for any robot and any
cluster extraction result. -/
theorem C10_search_after_cluster_no_throw (P : LocParams)
    (extractFn : List V3 → List (List ℕ)) (st : LocState) (robot : Robot) :
    ∃ r', Locator.search P (Locator.cluster P extractFn st) robot = Except.ok r' := by
  have hdiff := cluster_diff P extractFn st
  have hpim := cluster_pim P extractFn st
  cases hr : robot.rect with
  | none =>
    refine ⟨robot, ?_⟩
    unfold Locator.search
    rw [hr]
  | some rf =>
    have hcover : ∀ v ∈ sideIdxs (zoomRect P (rectToInt rf)).y (zoomRect P (rectToInt rf)).height,
        ∀ u ∈ sideIdxs (zoomRect P (rectToInt rf)).x (zoomRect P (rectToInt rf)).width,
        (Locator.cluster P extractFn st).diff v u = 0 ∨
        (((Locator.cluster P extractFn st).pim.lookup (u, v)).isSome) := by
      intro v hv u hu
      by_cases hz : (Locator.cluster P extractFn st).diff v u = 0
      · exact Or.inl hz
      · right
        have hb := rectIntersect_img_bounds
          ⟨cvTrunc ((((rectToInt rf).x : ℚ) * P.zoom +
              ((rectToInt rf).width : ℚ) * P.zoom * (1 / 2)) -
              ((cvTrunc (((rectToInt rf).width : ℚ) * P.zoom) : ℚ) * (1 / 2))),
            cvTrunc ((((rectToInt rf).y : ℚ) * P.zoom +
              ((rectToInt rf).height : ℚ) * P.zoom * (1 / 2)) -
              ((cvTrunc (((rectToInt rf).height : ℚ) * P.zoom) : ℚ) * (1 / 2))),
            cvTrunc (((rectToInt rf).width : ℚ) * P.zoom),
            cvTrunc (((rectToInt rf).height : ℚ) * P.zoom)⟩
          P.widthZoomed P.heightZoomed
        have hzr : zoomRect P (rectToInt rf) = rectIntersect
          ⟨cvTrunc ((((rectToInt rf).x : ℚ) * P.zoom +
              ((rectToInt rf).width : ℚ) * P.zoom * (1 / 2)) -
              ((cvTrunc (((rectToInt rf).width : ℚ) * P.zoom) : ℚ) * (1 / 2))),
            cvTrunc ((((rectToInt rf).y : ℚ) * P.zoom +
              ((rectToInt rf).height : ℚ) * P.zoom * (1 / 2)) -
              ((cvTrunc (((rectToInt rf).height : ℚ) * P.zoom) : ℚ) * (1 / 2))),
            cvTrunc (((rectToInt rf).width : ℚ) * P.zoom),
            cvTrunc (((rectToInt rf).height : ℚ) * P.zoom)⟩
          ⟨0, 0, P.widthZoomed, P.heightZoomed⟩ := rfl
        rw [← hzr] at hb
        obtain ⟨h1, h2⟩ := mem_sideIdxs _ _ _ hu
        obtain ⟨h3, h4⟩ := mem_sideIdxs _ _ _ hv
        rcases hb with hempty | ⟨hx0, hxW, hy0, hyH⟩
        · rw [hempty] at hu
          have h5 := mem_sideIdxs _ _ _ hu
          dsimp only at h5
          omega
        · have hucol : u ∈ colIdxs P := mem_colIdxs_of P u (by omega) (by omega)
          have hvrow : v ∈ rowIdxs P := mem_rowIdxs_of P v (by omega) (by omega)
          rw [hpim]
          rw [hdiff] at hz
          exact rowFold_cover P st.diff v u (rowIdxs P) hvrow hucol hz ([], [])
    obtain ⟨cands, hcands⟩ := searchScanRows_ok P (Locator.cluster P extractFn st)
      (sideIdxs (zoomRect P (rectToInt rf)).x (zoomRect P (rectToInt rf)).width)
      (sideIdxs (zoomRect P (rectToInt rf)).y (zoomRect P (rectToInt rf)).height)
      hcover []
    unfold Locator.search
    rw [hr]
    dsimp only
    rw [hcands]
    cases cands with
    | nil => exact ⟨robot, rfl⟩
    | cons c rest => exact ⟨_, rfl⟩

end RmRadar
